import Mathlib

/-!
Package bufrw: binary encoding through a reusable scratch buffer.

A shallow embedding of `buffer.go` and `reader_writer.go` (package `bufrw`) and
the properties of the wire format, of the scratch buffer and of the write
wrapper.

Conventions of the embedding:

* a byte is a `Fin 256`; every conversion to a byte is an explicit `% 256`;
* Go's `int` is the 64-bit signed integer of the usual targets, embedded as an
  `Int` with an explicit wrap (`wrapInt64`) where the source does arithmetic;
  `uint32` and `uint64` values are `Nat`s reduced `% 2^32` and `% 2^64`;
* a Go slice is a `Slice`: either `nil` or a list of elements;
* a Go `string` is the list of its bytes (`len` is the byte count);
* a `float64` is its 64-bit IEEE-754 pattern, and equality of `float64` values
  is equality of patterns;
* a user value behind the interfaces `Serializable` and `SerializableToBufRW`
  is given by what its methods return;
* a call that ends in a run-time panic is a `Run.panicked`;
* the methods of `*Buffer` take the buffer and the stream as arguments and
  return their new states next to the Go return values;
* the borrowed view aliases the buffer's region, so every store into the view
  is written back to the buffer (`Buffer.alias`).
-/

namespace Bufrw

/-! ## Bytes, slices, errors -/

/-- A byte. -/
abbrev Byte := Fin 256

/-- Go conversion `byte(x)` of an unsigned value: the low 8 bits. -/
def byte (x : Nat) : Byte := ⟨x % 256, Nat.mod_lt x (by decide)⟩

/-- Errors that the package and its streams return. -/
inductive Error where
  /-- Value of `errors.New("... value must be in int32 range")` in `WriteInt`. -/
  | range
  /-- Value `io.EOF`. -/
  | eof
  /-- Value `io.ErrUnexpectedEOF`. -/
  | unexpectedEOF
  /-- An error of the underlying stream. -/
  | stream (code : Nat)
  /-- An error returned by a user type's own serialization routine. -/
  | user (code : Nat)
  deriving DecidableEq, Repr

/-- A Go slice value: `nil`, or a (possibly empty) sequence of elements. -/
inductive Slice (α : Type) where
  | nil
  | data (elems : List α)
  deriving DecidableEq, Repr

namespace Slice

variable {α : Type}

/-- The elements of a slice; the nil slice has none. -/
def toList : Slice α → List α
  | nil => []
  | data l => l

/-- Go `len(s)`. -/
def len (s : Slice α) : Nat := s.toList.length

/-- Go `s[:n]` for `n ≤ len(s)`; slicing the nil slice gives the nil slice. -/
def upTo : Slice α → Nat → Slice α
  | nil, _ => nil
  | data l, n => data (l.take n)

/-- Go `s[i] = v` on every element at once: the slice keeps its identity
(nil stays nil) and takes the given contents. -/
def withElems : Slice α → List α → Slice α
  | nil, _ => nil
  | data _, l => data l

end Slice

/-- Go `make([]T, n)` for `n ≥ 0`: a non-nil slice of `n` zero values. -/
def make {α : Type} (zero : α) (n : Nat) : Slice α := Slice.data (List.replicate n zero)

/-! ## Integer conversions -/

/-- Constant `math.MaxInt32`. -/
def MaxInt32 : Int := 2147483647

/-- Constant `math.MinInt32`. -/
def MinInt32 : Int := -2147483648

/-- Result of 64-bit signed arithmetic: the value wrapped into `[-2^63, 2^63)`. -/
def wrapInt64 (x : Int) : Int := (x + 9223372036854775808) % 18446744073709551616 - 9223372036854775808

/-- Go conversion `uint32(x)` of a signed value. -/
def toUint32 (x : Int) : Nat := (x % 4294967296).toNat

/-- Go conversion `uint64(x)` of a signed value. -/
def toUint64 (x : Int) : Nat := (x % 18446744073709551616).toNat

/-- Function `binary.BigEndian.PutUint32(b, v)`: stores into `b[0..3]`. -/
def PutUint32 (b : List Byte) (v : Nat) : List Byte :=
  (((b.set 0 (byte (v / 2 ^ 24))).set 1 (byte (v / 2 ^ 16))).set 2 (byte (v / 2 ^ 8))).set 3 (byte v)

/-- Function `binary.BigEndian.Uint32(b)`: reads `b[0..3]`; the bitwise or of the
shifted bytes is their sum, the shifted bytes having disjoint bits. -/
def Uint32 (b : List Byte) : Nat :=
  ((b.getD 3 0).val + (b.getD 2 0).val * 2 ^ 8 + (b.getD 1 0).val * 2 ^ 16
    + (b.getD 0 0).val * 2 ^ 24) % 4294967296

/-- Function `binary.BigEndian.PutUint64(b, v)`: stores into `b[0..7]`. -/
def PutUint64 (b : List Byte) (v : Nat) : List Byte :=
  (((((((b.set 0 (byte (v / 2 ^ 56))).set 1 (byte (v / 2 ^ 48))).set 2 (byte (v / 2 ^ 40))).set 3
    (byte (v / 2 ^ 32))).set 4 (byte (v / 2 ^ 24))).set 5 (byte (v / 2 ^ 16))).set 6
    (byte (v / 2 ^ 8))).set 7 (byte v)

/-- Function `binary.BigEndian.Uint64(b)`: reads `b[0..7]`. -/
def Uint64 (b : List Byte) : Nat :=
  ((b.getD 7 0).val + (b.getD 6 0).val * 2 ^ 8 + (b.getD 5 0).val * 2 ^ 16
    + (b.getD 4 0).val * 2 ^ 24 + (b.getD 3 0).val * 2 ^ 32 + (b.getD 2 0).val * 2 ^ 40
    + (b.getD 1 0).val * 2 ^ 48 + (b.getD 0 0).val * 2 ^ 56) % 18446744073709551616

/-! ## Streams -/

/-- A destination stream (`io.Writer`): the bytes it has received, and how many
more it accepts before its `Write` fails (`none`: it never fails, as the
`bytes.Buffer` of the tests). -/
structure Sink where
  data : List Byte
  room : Option Nat
  deriving DecidableEq, Repr

/-- Method `w.Write(p)` of the destination: takes all of `p` and returns no
error, or takes what it has room for and returns a stream error. -/
def Sink.Write (w : Sink) (p : List Byte) : Sink × Option Error :=
  match w.room with
  | none => ({ w with data := w.data ++ p }, none)
  | some k =>
    if p.length ≤ k then ({ data := w.data ++ p, room := some (k - p.length) }, none)
    else ({ data := w.data ++ p.take k, room := some 0 }, some (Error.stream 0))

/-- A source stream (`io.Reader`): the bytes it still holds, and the error it
gives once they are used up (`none`: a clean `io.EOF`). -/
structure Source where
  data : List Byte
  fault : Option Error
  deriving DecidableEq, Repr

/-- Function `io.ReadFull(r, b)`: fills all of `b` from `r`. With `len(b) = 0`
it returns at once; with too few bytes left it stores what there is and returns
the stream's error, `io.EOF` when nothing was read and `io.ErrUnexpectedEOF`
otherwise. Returns the stream, the new contents of `b` and the error. -/
def ReadFull (r : Source) (b : List Byte) : Source × List Byte × Option Error :=
  if b.length = 0 then (r, b, none)
  else if b.length ≤ r.data.length then
    ({ r with data := r.data.drop b.length }, r.data.take b.length, none)
  else
    ({ r with data := [] }, r.data ++ b.drop r.data.length,
      some (match r.fault with
        | some e => e
        | none => if r.data.length = 0 then Error.eof else Error.unexpectedEOF))

/-! ## The scratch buffer -/

/-- Type `Buffer`: the internal byte slice and the configured maximum size. -/
structure Buffer where
  b : Slice Byte
  maxSize : Int
  deriving DecidableEq, Repr

/-- Function `NewBuffer(size)` for `size ≥ 0`. -/
def NewBuffer (size : Nat) : Buffer := { b := make 0 size, maxSize := size }

/-- The zero value `var buf Buffer`. -/
def Buffer.zero : Buffer := { b := Slice.nil, maxSize := 0 }

/-- Method `borrow(n)`: the buffer afterwards and the returned view. -/
def Buffer.borrow (buf : Buffer) (n : Int) : Buffer × Slice Byte :=
  if n < 0 then (buf, buf.b)
  else
    let buf1 : Buffer := if n > buf.b.len then { buf with b := make 0 n.toNat } else buf
    (buf1, buf1.b.upTo n.toNat)

/-- The view returned by `borrow` shares its memory with the start of `buf.b`:
after stores into the view, the buffer's region starts with the view's
contents. -/
def Buffer.alias (buf : Buffer) (view : Slice Byte) : Buffer :=
  { buf with b := buf.b.withElems (view.toList ++ buf.b.toList.drop view.len) }

/-- What a write method leaves behind: the buffer, the stream and the returned
error (`none` is Go's `nil`). -/
structure WriteResult where
  buf : Buffer
  w : Sink
  err : Option Error
  deriving DecidableEq, Repr

/-- What a read method leaves behind: the buffer, the stream, the returned
value and the returned error. -/
structure ReadResult (α : Type) where
  buf : Buffer
  r : Source
  val : α
  err : Option Error
  deriving DecidableEq, Repr

/-- Method `Read(r, n)`. -/
def Buffer.Read (buf : Buffer) (r : Source) (n : Int) : ReadResult (Slice Byte) :=
  let (buf1, b) := buf.borrow n
  let (r1, filled, err) := ReadFull r b.toList
  let b1 := b.withElems filled
  match err with
  | some e => { buf := buf1.alias b1, r := r1, val := Slice.nil, err := some e }
  | none => { buf := buf1.alias b1, r := r1, val := b1, err := none }

/-- Method `WriteByteValue(w, val)`. -/
def Buffer.WriteByteValue (buf : Buffer) (w : Sink) (val : Byte) : WriteResult :=
  let (buf1, b) := buf.borrow 1
  let b1 := b.withElems (b.toList.set 0 val)
  let (w1, err) := w.Write b1.toList
  { buf := buf1.alias b1, w := w1, err := err }

/-- Method `ReadByteValue(r)`. -/
def Buffer.ReadByteValue (buf : Buffer) (r : Source) : ReadResult Byte :=
  let x := buf.Read r 1
  match x.err with
  | some e => { buf := x.buf, r := x.r, val := 0, err := some e }
  | none => { buf := x.buf, r := x.r, val := x.val.toList.getD 0 0, err := none }

/-- Method `WriteBool(w, val)`. -/
def Buffer.WriteBool (buf : Buffer) (w : Sink) (val : Bool) : WriteResult :=
  if val then buf.WriteByteValue w 1 else buf.WriteByteValue w 0

/-- Method `ReadBool(r)`. -/
def Buffer.ReadBool (buf : Buffer) (r : Source) : ReadResult Bool :=
  let x := buf.ReadByteValue r
  { buf := x.buf, r := x.r, val := decide (x.val = 1), err := x.err }

/-- Method `WriteInt(w, val)`. -/
def Buffer.WriteInt (buf : Buffer) (w : Sink) (val : Int) : WriteResult :=
  if val > MaxInt32 ∨ val < MinInt32 then { buf := buf, w := w, err := some Error.range }
  else
    let (buf1, b) := buf.borrow 4
    let val1 := if val < 0 then wrapInt64 (wrapInt64 (-val) + MaxInt32) else val
    let b1 := b.withElems (PutUint32 b.toList (toUint32 val1))
    let (w1, err) := w.Write b1.toList
    { buf := buf1.alias b1, w := w1, err := err }

/-- Method `ReadInt(r)`. -/
def Buffer.ReadInt (buf : Buffer) (r : Source) : ReadResult Int :=
  let x := buf.Read r 4
  match x.err with
  | some e => { buf := x.buf, r := x.r, val := 0, err := some e }
  | none =>
    let val := Uint32 x.val.toList
    if (val : Int) ≤ MaxInt32 then { buf := x.buf, r := x.r, val := (val : Int), err := none }
    else
      let v := (val + 4294967296 - 2147483647) % 4294967296
      { buf := x.buf, r := x.r, val := wrapInt64 (-(v : Int)), err := none }

/-- The loop `for _, v := range val` of the sequence writers: writes the
elements in order and returns at the first error. -/
def rangeWrite {α : Type} (elem : Buffer → Sink → α → WriteResult) :
    Buffer → Sink → List α → WriteResult
  | buf, w, [] => { buf := buf, w := w, err := none }
  | buf, w, v :: rest =>
    let x := elem buf w v
    match x.err with
    | some e => { buf := x.buf, w := x.w, err := some e }
    | none => rangeWrite elem x.buf x.w rest

/-- The loop `for i := 0; i < n; i++` of the sequence readers, with `k = n - i`
iterations left: stores each element read into `values[i]`, and returns nil and
the error at the first element that fails. -/
def countRead {α : Type} (elem : Buffer → Source → ReadResult α) :
    Nat → Nat → Buffer → Source → List α → ReadResult (Slice α)
  | 0, _, buf, r, values => { buf := buf, r := r, val := Slice.data values, err := none }
  | k + 1, i, buf, r, values =>
    let x := elem buf r
    match x.err with
    | some e => { buf := x.buf, r := x.r, val := Slice.nil, err := some e }
    | none => countRead elem k (i + 1) x.buf x.r (values.set i x.val)

/-- How a call ends: it returns, or the Go runtime panics (here: `make` with
a negative length), leaving the buffer and the stream as they were then. -/
inductive Run (ρ : Type) where
  | returned (res : ρ)
  | panicked (buf : Buffer) (r : Source)
  deriving DecidableEq, Repr

/-- The body shared by the sequence readers: read the count, `make` the
result, read the elements. -/
def readSeq {α : Type} (zero : α) (elem : Buffer → Source → ReadResult α)
    (buf : Buffer) (r : Source) : Run (ReadResult (Slice α)) :=
  let x := buf.ReadInt r
  match x.err with
  | some e => Run.returned { buf := x.buf, r := x.r, val := Slice.nil, err := some e }
  | none =>
    if x.val < 0 then Run.panicked x.buf x.r
    else Run.returned
      (countRead elem x.val.toNat 0 x.buf x.r (List.replicate x.val.toNat zero))

/-- Method `WriteBools(w, val...)`. -/
def Buffer.WriteBools (buf : Buffer) (w : Sink) (val : List Bool) : WriteResult :=
  let x := buf.WriteInt w (val.length : Int)
  match x.err with
  | some e => { buf := x.buf, w := x.w, err := some e }
  | none => rangeWrite Buffer.WriteBool x.buf x.w val

/-- Method `ReadBools(r)`. -/
def Buffer.ReadBools (buf : Buffer) (r : Source) : Run (ReadResult (Slice Bool)) :=
  readSeq false Buffer.ReadBool buf r

/-- Method `WriteByteValues(w, val...)`. -/
def Buffer.WriteByteValues (buf : Buffer) (w : Sink) (val : List Byte) : WriteResult :=
  let x := buf.WriteInt w (val.length : Int)
  match x.err with
  | some e => { buf := x.buf, w := x.w, err := some e }
  | none =>
    let (w1, err) := x.w.Write val
    { buf := x.buf, w := w1, err := err }

/-- Method `ReadByteValues(r)`. -/
def Buffer.ReadByteValues (buf : Buffer) (r : Source) : Run (ReadResult (Slice Byte)) :=
  readSeq 0 Buffer.ReadByteValue buf r

/-- Method `WriteInts(w, val...)`. -/
def Buffer.WriteInts (buf : Buffer) (w : Sink) (val : List Int) : WriteResult :=
  let x := buf.WriteInt w (val.length : Int)
  match x.err with
  | some e => { buf := x.buf, w := x.w, err := some e }
  | none => rangeWrite Buffer.WriteInt x.buf x.w val

/-- Method `ReadInts(r)`. -/
def Buffer.ReadInts (buf : Buffer) (r : Source) : Run (ReadResult (Slice Int)) :=
  readSeq 0 Buffer.ReadInt buf r

/-- Method `WriteInt64(w, val)`. -/
def Buffer.WriteInt64 (buf : Buffer) (w : Sink) (val : Int) : WriteResult :=
  let (buf1, b) := buf.borrow 8
  let b1 := b.withElems (PutUint64 b.toList (toUint64 val))
  let (w1, err) := w.Write b1.toList
  { buf := buf1.alias b1, w := w1, err := err }

/-- Method `ReadInt64(r)`. -/
def Buffer.ReadInt64 (buf : Buffer) (r : Source) : ReadResult Int :=
  let x := buf.Read r 8
  match x.err with
  | some e => { buf := x.buf, r := x.r, val := 0, err := some e }
  | none => { buf := x.buf, r := x.r, val := wrapInt64 (Uint64 x.val.toList), err := none }

/-- Method `WriteInt64s(w, val...)`. -/
def Buffer.WriteInt64s (buf : Buffer) (w : Sink) (val : List Int) : WriteResult :=
  let x := buf.WriteInt w (val.length : Int)
  match x.err with
  | some e => { buf := x.buf, w := x.w, err := some e }
  | none => rangeWrite Buffer.WriteInt64 x.buf x.w val

/-- Method `ReadInt64s(r)`. -/
def Buffer.ReadInt64s (buf : Buffer) (r : Source) : Run (ReadResult (Slice Int)) :=
  readSeq 0 Buffer.ReadInt64 buf r

/-- Go builtin `copy(dst, src)`: the first `min(len(dst), len(src))` bytes of
`dst` become those of `src`. -/
def copy (dst src : List Byte) : List Byte := src.take dst.length ++ dst.drop src.length

/-- Method `WriteString(w, val)`; the string is given by its bytes. -/
def Buffer.WriteString (buf : Buffer) (w : Sink) (val : List Byte) : WriteResult :=
  let n : Int := val.length
  let x := buf.WriteInt w n
  match x.err with
  | some e => { buf := x.buf, w := x.w, err := some e }
  | none =>
    let (buf1, b) := x.buf.borrow n
    let b1 := b.withElems (copy b.toList val)
    let (w1, err) := x.w.Write b1.toList
    { buf := buf1.alias b1, w := w1, err := err }

/-- Method `ReadString(r)`; the returned string is `string(b)`, the bytes of the
view (none for the nil view). -/
def Buffer.ReadString (buf : Buffer) (r : Source) : ReadResult (List Byte) :=
  let x := buf.ReadInt r
  match x.err with
  | some e => { buf := x.buf, r := x.r, val := [], err := some e }
  | none =>
    let y := x.buf.Read x.r x.val
    { buf := y.buf, r := y.r, val := y.val.toList, err := y.err }

/-- Method `WriteStrings(w, val...)`. -/
def Buffer.WriteStrings (buf : Buffer) (w : Sink) (val : List (List Byte)) : WriteResult :=
  let x := buf.WriteInt w (val.length : Int)
  match x.err with
  | some e => { buf := x.buf, w := x.w, err := some e }
  | none => rangeWrite Buffer.WriteString x.buf x.w val

/-- Method `ReadStrings(r)`. -/
def Buffer.ReadStrings (buf : Buffer) (r : Source) : Run (ReadResult (Slice (List Byte))) :=
  readSeq [] Buffer.ReadString buf r

/-! ## float64 values -/

/-- A `float64` value, given by its IEEE-754 bit pattern (64 bits). -/
structure Float64 where
  bits : Nat
  lt : bits < 18446744073709551616
  deriving DecidableEq, Repr

/-- Function `math.Float64bits(f)`: the bit pattern of `f` as a `uint64`. -/
def Float64bits (f : Float64) : Nat := f.bits

/-- Function `math.Float64frombits(u)`: the `float64` with the bit pattern `u`. -/
def Float64frombits (u : Nat) : Float64 :=
  { bits := u % 18446744073709551616, lt := Nat.mod_lt u (by decide) }

/-- The `float64` zero value `0`, all bits clear. -/
def Float64.zero : Float64 := { bits := 0, lt := by decide }

/-- Method `WriteFloat64(w, val)`. -/
def Buffer.WriteFloat64 (buf : Buffer) (w : Sink) (val : Float64) : WriteResult :=
  let (buf1, b) := buf.borrow 8
  let b1 := b.withElems (PutUint64 b.toList (Float64bits val))
  let (w1, err) := w.Write b1.toList
  { buf := buf1.alias b1, w := w1, err := err }

/-- Method `ReadFloat64(r)`. -/
def Buffer.ReadFloat64 (buf : Buffer) (r : Source) : ReadResult Float64 :=
  let x := buf.Read r 8
  match x.err with
  | some e => { buf := x.buf, r := x.r, val := Float64.zero, err := some e }
  | none => { buf := x.buf, r := x.r, val := Float64frombits (Uint64 x.val.toList), err := none }

/-- Method `WriteFloat64s(w, val...)`. -/
def Buffer.WriteFloat64s (buf : Buffer) (w : Sink) (val : List Float64) : WriteResult :=
  let x := buf.WriteInt w (val.length : Int)
  match x.err with
  | some e => { buf := x.buf, w := x.w, err := some e }
  | none => rangeWrite Buffer.WriteFloat64 x.buf x.w val

/-- Method `ReadFloat64s(r)`. -/
def Buffer.ReadFloat64s (buf : Buffer) (r : Source) : Run (ReadResult (Slice Float64)) :=
  readSeq Float64.zero Buffer.ReadFloat64 buf r

/-! ## Serializable values -/

/-- Interface `SerializableToBufRW`: a value by what its two methods do with a
stream and a buffer. -/
structure SerializableToBufRW where
  SerializeToBufRW : Sink → Buffer → WriteResult
  DeserializeFromBufRW : Source → Buffer → Run (ReadResult Unit)

/-- Interface `Serializable`: a value by what `Serialize()` returns (the bytes
and the error), what `Deserialize(b)` returns on each slice, and what the type
assertion `val.(SerializableToBufRW)` finds (`none` when it fails). -/
structure Serializable where
  Serialize : Slice Byte × Option Error
  Deserialize : Slice Byte → Option Error
  asBufRW : Option SerializableToBufRW

/-- Method `WriteSerializableBufRW(w, val)`. -/
def Buffer.WriteSerializableBufRW (buf : Buffer) (w : Sink) (val : SerializableToBufRW) :
    WriteResult :=
  val.SerializeToBufRW w buf

/-- Method `ReadSerializableBufRW(r, val)`. -/
def Buffer.ReadSerializableBufRW (buf : Buffer) (r : Source) (val : SerializableToBufRW) :
    Run (ReadResult Unit) :=
  val.DeserializeFromBufRW r buf

/-- Method `WriteSerializable(w, val)`. -/
def Buffer.WriteSerializable (buf : Buffer) (w : Sink) (val : Serializable) : WriteResult :=
  match val.asBufRW with
  | some s => buf.WriteSerializableBufRW w s
  | none =>
    let (b, err) := val.Serialize
    match err with
    | some e => { buf := buf, w := w, err := some e }
    | none => buf.WriteByteValues w b.toList

/-- Method `ReadSerializable(r, val)`. -/
def Buffer.ReadSerializable (buf : Buffer) (r : Source) (val : Serializable) :
    Run (ReadResult Unit) :=
  match val.asBufRW with
  | some s => buf.ReadSerializableBufRW r s
  | none =>
    match buf.ReadByteValues r with
    | Run.panicked buf1 r1 => Run.panicked buf1 r1
    | Run.returned x =>
      match x.err with
      | some e => Run.returned { buf := x.buf, r := x.r, val := (), err := some e }
      | none => Run.returned { buf := x.buf, r := x.r, val := (), err := val.Deserialize x.val }

/-! ## The write wrapper (`reader_writer.go`) -/

/-- Type `Writer`: the buffer and the stream it is bound to (held by reference
in the source, carried here as their current states), the mode and the stored
error. -/
structure Writer where
  buf : Buffer
  w : Sink
  stopOnError : Bool
  err : Option Error
  deriving DecidableEq, Repr

/-- Method `do(fn)`: the wrapper afterwards and the returned error. -/
def Writer.do (wr : Writer) (fn : Buffer → Sink → WriteResult) : Writer × Option Error :=
  if wr.err ≠ none ∧ wr.stopOnError = true then (wr, wr.err)
  else
    let x := fn wr.buf wr.w
    ({ wr with buf := x.buf, w := x.w, err := x.err }, x.err)

/-- Method `Writer.WriteBool(val)`. -/
def Writer.WriteBool (wr : Writer) (val : Bool) : Writer × Option Error :=
  wr.do (fun buf w => buf.WriteBool w val)

/-- Method `Writer.WriteBools(val...)`. -/
def Writer.WriteBools (wr : Writer) (val : List Bool) : Writer × Option Error :=
  wr.do (fun buf w => buf.WriteBools w val)

/-- Method `Writer.WriteByteValue(val)`. -/
def Writer.WriteByteValue (wr : Writer) (val : Byte) : Writer × Option Error :=
  wr.do (fun buf w => buf.WriteByteValue w val)

/-- Method `Writer.WriteByteValues(val...)`. -/
def Writer.WriteByteValues (wr : Writer) (val : List Byte) : Writer × Option Error :=
  wr.do (fun buf w => buf.WriteByteValues w val)

/-- Method `Writer.WriteInt(val)`. -/
def Writer.WriteInt (wr : Writer) (val : Int) : Writer × Option Error :=
  wr.do (fun buf w => buf.WriteInt w val)

/-- Method `Writer.WriteInts(val...)`. -/
def Writer.WriteInts (wr : Writer) (val : List Int) : Writer × Option Error :=
  wr.do (fun buf w => buf.WriteInts w val)

/-- Method `Writer.WriteInt64(val)`. -/
def Writer.WriteInt64 (wr : Writer) (val : Int) : Writer × Option Error :=
  wr.do (fun buf w => buf.WriteInt64 w val)

/-- Method `Writer.WriteInt64s(val...)`. -/
def Writer.WriteInt64s (wr : Writer) (val : List Int) : Writer × Option Error :=
  wr.do (fun buf w => buf.WriteInt64s w val)

/-- Method `Writer.WriteFloat64(val)`. -/
def Writer.WriteFloat64 (wr : Writer) (val : Float64) : Writer × Option Error :=
  wr.do (fun buf w => buf.WriteFloat64 w val)

/-- Method `Writer.WriteFloat64s(val...)`. -/
def Writer.WriteFloat64s (wr : Writer) (val : List Float64) : Writer × Option Error :=
  wr.do (fun buf w => buf.WriteFloat64s w val)

/-- Method `Writer.WriteString(val)`. -/
def Writer.WriteString (wr : Writer) (val : List Byte) : Writer × Option Error :=
  wr.do (fun buf w => buf.WriteString w val)

/-- Method `Writer.WriteStrings(val...)`. -/
def Writer.WriteStrings (wr : Writer) (val : List (List Byte)) : Writer × Option Error :=
  wr.do (fun buf w => buf.WriteStrings w val)

/-- Method `Writer.WriteSerializable(val)`. -/
def Writer.WriteSerializable (wr : Writer) (val : Serializable) : Writer × Option Error :=
  wr.do (fun buf w => buf.WriteSerializable w val)

/-- Method `Writer.Err()`. -/
def Writer.Err (wr : Writer) : Option Error := wr.err

/-- Method `buf.Writer(w, stopOnError...)`. -/
def Buffer.Writer (buf : Buffer) (w : Sink) (stopOnError : List Bool) : Writer :=
  { buf := buf, w := w,
    stopOnError := decide (stopOnError.length > 0) && stopOnError.headD false,
    err := none }

/-- One call of a write method of `*Writer`, with its argument. -/
inductive WriterCall where
  | WriteBool (val : Bool)
  | WriteBools (val : List Bool)
  | WriteByteValue (val : Byte)
  | WriteByteValues (val : List Byte)
  | WriteInt (val : Int)
  | WriteInts (val : List Int)
  | WriteInt64 (val : Int)
  | WriteInt64s (val : List Int)
  | WriteFloat64 (val : Float64)
  | WriteFloat64s (val : List Float64)
  | WriteString (val : List Byte)
  | WriteStrings (val : List (List Byte))
  | WriteSerializable (val : Serializable)

/-- Performs the call on a wrapper. -/
def Writer.call (wr : Writer) : WriterCall → Writer × Option Error
  | WriterCall.WriteBool val => wr.WriteBool val
  | WriterCall.WriteBools val => wr.WriteBools val
  | WriterCall.WriteByteValue val => wr.WriteByteValue val
  | WriterCall.WriteByteValues val => wr.WriteByteValues val
  | WriterCall.WriteInt val => wr.WriteInt val
  | WriterCall.WriteInts val => wr.WriteInts val
  | WriterCall.WriteInt64 val => wr.WriteInt64 val
  | WriterCall.WriteInt64s val => wr.WriteInt64s val
  | WriterCall.WriteFloat64 val => wr.WriteFloat64 val
  | WriterCall.WriteFloat64s val => wr.WriteFloat64s val
  | WriterCall.WriteString val => wr.WriteString val
  | WriterCall.WriteStrings val => wr.WriteStrings val
  | WriterCall.WriteSerializable val => wr.WriteSerializable val

/-- A sequence of calls on one wrapper: the wrapper at the end and the error
each call returned, in order. -/
def Writer.calls : Writer → List WriterCall → Writer × List (Option Error)
  | wr, [] => (wr, [])
  | wr, c :: cs =>
    let x := wr.call c
    let rest := Writer.calls x.1 cs
    (rest.1, x.2 :: rest.2)

/-- The error of the most recent failed call among the returned errors: the
last one that is not nil (`none` when no call failed). -/
def lastFailure : List (Option Error) → Option Error
  | [] => none
  | r :: rs =>
    match lastFailure rs with
    | some e => some e
    | none => r

/-- The method of `*Buffer` that a call of the wrapper passes to `do`. -/
def WriterCall.fn : WriterCall → Buffer → Sink → WriteResult
  | WriterCall.WriteBool val => fun buf w => buf.WriteBool w val
  | WriterCall.WriteBools val => fun buf w => buf.WriteBools w val
  | WriterCall.WriteByteValue val => fun buf w => buf.WriteByteValue w val
  | WriterCall.WriteByteValues val => fun buf w => buf.WriteByteValues w val
  | WriterCall.WriteInt val => fun buf w => buf.WriteInt w val
  | WriterCall.WriteInts val => fun buf w => buf.WriteInts w val
  | WriterCall.WriteInt64 val => fun buf w => buf.WriteInt64 w val
  | WriterCall.WriteInt64s val => fun buf w => buf.WriteInt64s w val
  | WriterCall.WriteFloat64 val => fun buf w => buf.WriteFloat64 w val
  | WriterCall.WriteFloat64s val => fun buf w => buf.WriteFloat64s w val
  | WriterCall.WriteString val => fun buf w => buf.WriteString w val
  | WriterCall.WriteStrings val => fun buf w => buf.WriteStrings w val
  | WriterCall.WriteSerializable val => fun buf w => buf.WriteSerializable w val

/-! ## Sequences of write calls -/

/-- One call of a write method of `*Buffer`, with its argument. -/
inductive WriteOp where
  | bool (val : Bool)
  | bools (val : List Bool)
  | byteValue (val : Byte)
  | byteValues (val : List Byte)
  | int (val : Int)
  | ints (val : List Int)
  | int64 (val : Int)
  | int64s (val : List Int)
  | string (val : List Byte)
  | strings (val : List (List Byte))
  deriving DecidableEq, Repr

/-- Performs the call on a buffer and a stream. -/
def WriteOp.run : WriteOp → Buffer → Sink → WriteResult
  | WriteOp.bool val, buf, w => buf.WriteBool w val
  | WriteOp.bools val, buf, w => buf.WriteBools w val
  | WriteOp.byteValue val, buf, w => buf.WriteByteValue w val
  | WriteOp.byteValues val, buf, w => buf.WriteByteValues w val
  | WriteOp.int val, buf, w => buf.WriteInt w val
  | WriteOp.ints val, buf, w => buf.WriteInts w val
  | WriteOp.int64 val, buf, w => buf.WriteInt64 w val
  | WriteOp.int64s val, buf, w => buf.WriteInt64s w val
  | WriteOp.string val, buf, w => buf.WriteString w val
  | WriteOp.strings val, buf, w => buf.WriteStrings w val

/-- Sequential calls on one buffer and one stream: the stream at the end and
the error each call returned. -/
def runShared : List WriteOp → Buffer → Sink → Sink × List (Option Error)
  | [], _, w => (w, [])
  | op :: ops, buf, w =>
    let x := op.run buf w
    let rest := runShared ops x.buf x.w
    (rest.1, x.err :: rest.2)

/-- The same calls on one stream, each on a buffer of its own. -/
def runFresh : List (WriteOp × Buffer) → Sink → Sink × List (Option Error)
  | [], w => (w, [])
  | (op, buf) :: ops, w =>
    let x := op.run buf w
    let rest := runFresh ops x.w
    (rest.1, x.err :: rest.2)

/-- A write method whose effect on the stream and whose error do not depend on
the buffer it is given. -/
def BufferFree {α : Type} (op : Buffer → Sink → α → WriteResult) : Prop :=
  ∀ (buf1 buf2 : Buffer) (w : Sink) (v : α),
    (op buf1 w v).w = (op buf2 w v).w ∧ (op buf1 w v).err = (op buf2 w v).err

/-! ## The wire format as the specification words it -/

/-- Big-endian representation of `u` on `k` bytes (the low `8k` bits of `u`). -/
def beBytes : Nat → Nat → List Byte
  | 0, _ => []
  | k + 1, u => beBytes k (u / 256) ++ [byte u]

/-- The unsigned number that a sequence of bytes denotes in big-endian order. -/
def beValue (bs : List Byte) : Nat := bs.foldl (fun acc b => acc * 256 + b.val) 0

/-- Sign-offset rule of the bounded int: non-negative values are stored as they
are, negative values as `(-value) + (2^31 - 1)`. -/
def signOffset (v : Int) : Int := if 0 ≤ v then v else (-v) + (2 ^ 31 - 1)

/-- Wire form of a bounded int: 4 bytes, big-endian, sign-offset. -/
def intWire (v : Int) : List Byte := beBytes 4 (signOffset v).toNat

/-- Wire form of a bool: `0x01` for true, `0x00` for false. -/
def boolWire (v : Bool) : List Byte := [if v then 1 else 0]

/-- The 64-bit two's-complement pattern of `v`: `v` itself when `v ≥ 0`,
`v + 2^64` when `v < 0`. -/
def twosComplement64 (v : Int) : Int := if 0 ≤ v then v else v + 2 ^ 64

/-- Wire form of an int64: 8 bytes, big-endian, two's complement. -/
def int64Wire (v : Int) : List Byte := beBytes 8 (twosComplement64 v).toNat

/-- Wire form of a string: the bounded-int byte count, then the bytes. -/
def stringWire (s : List Byte) : List Byte := intWire s.length ++ s

/-- The elements of a sequence on the wire: the wire forms of the elements, in
order, with no separator. -/
def seqBody {α : Type} (enc : α → List Byte) : List α → List Byte
  | [] => []
  | v :: vs => enc v ++ seqBody enc vs

/-- Wire form of a sequence: the bounded-int element count, then the elements
in order. -/
def seqWire {α : Type} (enc : α → List Byte) (vs : List α) : List Byte :=
  intWire vs.length ++ seqBody enc vs

/-- The bytes of a Go string literal: the UTF-8 encoding of its characters. -/
def goString (s : String) : List Byte :=
  (s.data.flatMap String.utf8EncodeChar).map (fun c => byte c.toNat)

/-- The decoding rule of the bounded int on the stored unsigned number `s`:
`s` itself when `s ≤ 2^31-1`, else `-(s - (2^31-1))`. -/
def intDecode (s : Nat) : Int :=
  if (s : Int) ≤ 2 ^ 31 - 1 then (s : Int) else -((s : Int) - (2 ^ 31 - 1))

/-- What a sequence decoder does with the count prefix, which it does not
validate. When the prefix cannot be read, the call returns nil and the error of
that read; when the prefix decodes to a number `n ≥ 0`, the call returns:
either no error and a non-nil sequence of `n` elements, or an error and nil.
When the prefix decodes to a negative number the call ends in the panic of
`make`, right after the prefix was read. -/
def ReturnsUnlessNegativeCount {α : Type}
    (dec : Buffer → Source → Run (ReadResult (Slice α))) : Prop :=
  ∀ (buf : Buffer) (r : Source),
    (∀ e : Error, (buf.ReadInt r).err = some e →
        dec buf r = Run.returned
          { buf := (buf.ReadInt r).buf, r := (buf.ReadInt r).r, val := Slice.nil, err := some e })
      ∧ ((buf.ReadInt r).err = none → 0 ≤ (buf.ReadInt r).val →
        ∃ x : ReadResult (Slice α), dec buf r = Run.returned x
          ∧ ((x.err = none ∧ ∃ vs : List α, x.val = Slice.data vs
                ∧ (vs.length : Int) = (buf.ReadInt r).val)
            ∨ (∃ e : Error, x.err = some e ∧ x.val = Slice.nil)))
      ∧ ((buf.ReadInt r).err = none → (buf.ReadInt r).val < 0 →
        dec buf r = Run.panicked (buf.ReadInt r).buf (buf.ReadInt r).r)

/-! ## Lemmas on slices, the buffer and the streams -/

theorem Slice.withElems_toList {α : Type} (s : Slice α) (l : List α) (h : l.length = s.len) :
    (s.withElems l).toList = l := by
  cases s with
  | nil =>
    have : l = [] := List.length_eq_zero.mp (by simpa [Slice.len, Slice.toList] using h)
    simp [Slice.withElems, Slice.toList, this]
  | data m => simp [Slice.withElems, Slice.toList]

theorem Buffer.borrow_len (buf : Buffer) (n : Int) (h : 0 ≤ n) :
    (buf.borrow n).2.len = n.toNat := by
  unfold Buffer.borrow
  rw [if_neg (not_lt.mpr h)]
  simp only []
  split_ifs with h1
  · simp [make, Slice.upTo, Slice.len, Slice.toList]
  · cases hb : buf.b with
    | nil =>
      simp [hb, Slice.len, Slice.toList] at h1
      simp [Slice.upTo, Slice.len, Slice.toList]
      omega
    | data l =>
      simp [hb, Slice.len, Slice.toList] at h1
      simp [Slice.upTo, Slice.len, Slice.toList]
      omega

theorem Sink.Write_unbounded (w : Sink) (p : List Byte) (h : w.room = none) :
    w.Write p = ({ data := w.data ++ p, room := none }, none) := by
  cases w with
  | mk d rm =>
    simp only at h
    subst h
    rfl

theorem PutUint32_length (b : List Byte) (v : Nat) : (PutUint32 b v).length = b.length := by
  simp [PutUint32]

theorem PutUint32_eq (b : List Byte) (v : Nat) (h : b.length = 4) :
    PutUint32 b v = [byte (v / 2 ^ 24), byte (v / 2 ^ 16), byte (v / 2 ^ 8), byte v] := by
  rcases b with _ | ⟨b0, _ | ⟨b1, _ | ⟨b2, _ | ⟨b3, _ | ⟨b4, l⟩⟩⟩⟩⟩ <;> simp at h
  rfl

theorem beBytes_four (u : Nat) :
    beBytes 4 u = [byte (u / 2 ^ 24), byte (u / 2 ^ 16), byte (u / 2 ^ 8), byte u] := by
  simp only [beBytes, List.nil_append, List.cons_append, List.cons.injEq, and_true]
  refine ⟨?_, ?_, ?_⟩ <;> (apply Fin.ext; simp only [byte]; omega)

theorem beValue_four (a b c d : Byte) :
    beValue [a, b, c, d] = a.val * 2 ^ 24 + b.val * 2 ^ 16 + c.val * 2 ^ 8 + d.val := by
  simp only [beValue, List.foldl]
  omega

theorem Uint32_eq_beValue (e : List Byte) (h : e.length = 4) : Uint32 e = beValue e := by
  rcases e with _ | ⟨b0, _ | ⟨b1, _ | ⟨b2, _ | ⟨b3, _ | ⟨b4, l⟩⟩⟩⟩⟩ <;> simp at h
  rw [beValue_four]
  simp only [Uint32, List.getD_cons_zero, List.getD_cons_succ]
  have h0 := b0.isLt
  have h1 := b1.isLt
  have h2 := b2.isLt
  have h3 := b3.isLt
  omega

theorem beValue_beBytes_four (u : Nat) : beValue (beBytes 4 u) = u % 4294967296 := by
  rw [beBytes_four, beValue_four]
  simp only [byte]
  omega

/-! ## What each scalar method does to the streams -/

theorem toUint32_signOffset (v : Int) (h1 : ¬ (v > MaxInt32 ∨ v < MinInt32)) :
    toUint32 (if v < 0 then wrapInt64 (wrapInt64 (-v) + MaxInt32) else v)
      = (signOffset v).toNat := by
  simp only [MaxInt32, MinInt32, gt_iff_lt, not_or, not_lt] at h1
  simp only [toUint32, signOffset, wrapInt64, MaxInt32]
  congr 1
  split_ifs <;> omega

/-- The stream and the error after `WriteInt` are those of one `Write` of the
wire form, for every in-range value and every stream. -/
theorem Buffer.WriteInt_inRange (buf : Buffer) (w : Sink) (v : Int)
    (h1 : ¬ (v > MaxInt32 ∨ v < MinInt32)) :
    (buf.WriteInt w v).w = (w.Write (intWire v)).1
      ∧ (buf.WriteInt w v).err = (w.Write (intWire v)).2 := by
  have hlen := buf.borrow_len 4 (by decide)
  rcases hp : buf.borrow 4 with ⟨buf1, b⟩
  rw [hp] at hlen
  simp only [Int.toNat_ofNat, Slice.len] at hlen
  have hb : (b.withElems (PutUint32 b.toList
      (toUint32 (if v < 0 then wrapInt64 (wrapInt64 (-v) + MaxInt32) else v)))).toList
      = intWire v := by
    rw [Slice.withElems_toList _ _ (by simp [PutUint32_length, Slice.len]),
      PutUint32_eq _ _ hlen, toUint32_signOffset v h1, intWire, beBytes_four]
  simp only [Buffer.WriteInt, if_neg h1, hp, hb, and_self]

theorem Buffer.WriteInt_outOfRange (buf : Buffer) (w : Sink) (v : Int)
    (h1 : v > MaxInt32 ∨ v < MinInt32) :
    buf.WriteInt w v = { buf := buf, w := w, err := some Error.range } := by
  simp only [Buffer.WriteInt, if_pos h1]

/-- A read of `n` bytes that the stream can supply: no error, the first `n`
bytes are returned and exactly they are consumed. -/
theorem Buffer.Read_ok (buf : Buffer) (r : Source) (n : Nat) (h : n ≤ r.data.length) :
    (buf.Read r n).err = none
      ∧ (buf.Read r n).r = { data := r.data.drop n, fault := r.fault }
      ∧ (buf.Read r n).val.toList = r.data.take n := by
  have hlen := buf.borrow_len n (Int.ofNat_nonneg n)
  rcases hp : buf.borrow n with ⟨buf1, b⟩
  rw [hp] at hlen
  simp only [Int.toNat_ofNat, Slice.len] at hlen
  by_cases h0 : n = 0
  · subst h0
    have hb : b.toList = [] := List.length_eq_zero.mp hlen
    have hw : (b.withElems ([] : List Byte)).toList = [] := by
      cases b <;> rfl
    simp only [Buffer.Read, hp, ReadFull, hb, hw, List.length_nil, if_true, List.drop_zero,
      List.take_zero, and_self]
  · have hw : (b.withElems (List.take n r.data)).toList = List.take n r.data :=
      Slice.withElems_toList _ _ (by simp [Slice.len, hlen, h])
    simp [Buffer.Read, hp, ReadFull, hlen, h0, h, hw]

theorem wrapInt64_small (x : Int) (h1 : -9223372036854775808 ≤ x) (h2 : x < 9223372036854775808) :
    wrapInt64 x = x := by
  unfold wrapInt64
  rw [Int.emod_eq_of_lt (by linarith) (by linarith)]
  ring

/-- The value `ReadInt` computes from the stored unsigned number `s`. -/
theorem Buffer.ReadInt_ok (buf : Buffer) (e t : List Byte) (f : Option Error)
    (he : e.length = 4) :
    (buf.ReadInt ⟨e ++ t, f⟩).err = none
      ∧ (buf.ReadInt ⟨e ++ t, f⟩).r = ⟨t, f⟩
      ∧ (buf.ReadInt ⟨e ++ t, f⟩).val
          = (if (beValue e : Int) ≤ 2147483647 then (beValue e : Int)
             else -((beValue e : Int) - 2147483647)) := by
  obtain ⟨h1, h2, h3⟩ := buf.Read_ok ⟨e ++ t, f⟩ 4 (by simp [he])
  have h4 : ((4 : Nat) : Int) = 4 := rfl
  rw [h4] at h1 h2 h3
  simp only [List.drop_append_of_le_length (le_of_eq he.symm),
    List.take_append_of_le_length (le_of_eq he.symm)] at h2 h3
  rw [← he, List.drop_length, List.nil_append] at h2
  rw [← he, List.take_length] at h3
  have hu := Uint32_eq_beValue e he
  have hlt : Uint32 e < 4294967296 := Nat.mod_lt _ (by decide)
  rw [hu] at hlt
  simp only [Buffer.ReadInt, h1, h2, h3, hu, MaxInt32]
  split_ifs with h5
  · exact ⟨rfl, rfl, rfl⟩
  · refine ⟨rfl, rfl, ?_⟩
    simp only []
    have h6 : (2147483647 : Int) < (beValue e : Int) := not_le.mp h5
    have h7 : (beValue e : Int) < 4294967296 := by exact_mod_cast hlt
    have h8 : (((beValue e + 4294967296 - 2147483647) % 4294967296 : Nat) : Int)
        = (beValue e : Int) - 2147483647 := by
      omega
    rw [h8, wrapInt64_small _ (by linarith) (by linarith)]

theorem Buffer.WriteByteValue_out (buf : Buffer) (w : Sink) (v : Byte) :
    (buf.WriteByteValue w v).w = (w.Write [v]).1
      ∧ (buf.WriteByteValue w v).err = (w.Write [v]).2 := by
  have hlen := buf.borrow_len 1 (by decide)
  rcases hp : buf.borrow 1 with ⟨buf1, b⟩
  rw [hp] at hlen
  simp only [Int.toNat_one, Slice.len] at hlen
  have hb : (b.withElems (b.toList.set 0 v)).toList = [v] := by
    rw [Slice.withElems_toList _ _ (by simp [Slice.len])]
    rcases hl : b.toList with _ | ⟨b0, _ | ⟨b1, l⟩⟩
    · simp [hl] at hlen
    · rfl
    · simp [hl] at hlen
  simp only [Buffer.WriteByteValue, hp, hb, and_self]

theorem Buffer.WriteBool_out (buf : Buffer) (w : Sink) (v : Bool) :
    (buf.WriteBool w v).w = (w.Write (boolWire v)).1
      ∧ (buf.WriteBool w v).err = (w.Write (boolWire v)).2 := by
  cases v
  · simpa [Buffer.WriteBool, boolWire] using buf.WriteByteValue_out w 0
  · simpa [Buffer.WriteBool, boolWire] using buf.WriteByteValue_out w 1

theorem Buffer.ReadByteValue_ok (buf : Buffer) (c : Byte) (t : List Byte) (f : Option Error) :
    (buf.ReadByteValue ⟨c :: t, f⟩).err = none
      ∧ (buf.ReadByteValue ⟨c :: t, f⟩).r = ⟨t, f⟩
      ∧ (buf.ReadByteValue ⟨c :: t, f⟩).val = c := by
  obtain ⟨h1, h2, h3⟩ := buf.Read_ok ⟨c :: t, f⟩ 1 (by simp)
  have h4 : ((1 : Nat) : Int) = 1 := rfl
  rw [h4] at h1 h2 h3
  simp only [List.drop_succ_cons, List.drop_zero, List.take_succ_cons, List.take_zero] at h2 h3
  simp [Buffer.ReadByteValue, h1, h2, h3]

theorem Buffer.ReadBool_ok (buf : Buffer) (c : Byte) (t : List Byte) (f : Option Error) :
    (buf.ReadBool ⟨c :: t, f⟩).err = none
      ∧ (buf.ReadBool ⟨c :: t, f⟩).r = ⟨t, f⟩
      ∧ (buf.ReadBool ⟨c :: t, f⟩).val = decide (c = 1) := by
  obtain ⟨h1, h2, h3⟩ := buf.ReadByteValue_ok c t f
  simp [Buffer.ReadBool, h1, h2, h3]

theorem intWire_length (v : Int) : (intWire v).length = 4 := by
  simp [intWire, beBytes]

theorem signOffset_bounds (v : Int) (hlo : -2147483648 ≤ v) (hhi : v ≤ 2147483647) :
    0 ≤ signOffset v ∧ signOffset v < 4294967296 := by
  have h : (2 : Int) ^ 31 = 2147483648 := by norm_num
  simp only [signOffset, h]
  split_ifs <;> constructor <;> omega

/-- Decoding the wire form of a bounded int gives the value back. -/
theorem Buffer.ReadInt_intWire (buf : Buffer) (v : Int) (hlo : -2147483648 ≤ v)
    (hhi : v ≤ 2147483647) (t : List Byte) (f : Option Error) :
    (buf.ReadInt ⟨intWire v ++ t, f⟩).err = none
      ∧ (buf.ReadInt ⟨intWire v ++ t, f⟩).r = ⟨t, f⟩
      ∧ (buf.ReadInt ⟨intWire v ++ t, f⟩).val = v := by
  obtain ⟨h1, h2, h3⟩ := buf.ReadInt_ok (intWire v) t f (intWire_length v)
  refine ⟨h1, h2, ?_⟩
  rw [h3]
  obtain ⟨hb1, hb2⟩ := signOffset_bounds v hlo hhi
  have hv : (beValue (intWire v) : Int) = signOffset v := by
    rw [intWire, beValue_beBytes_four]
    omega
  rw [hv]
  have h : (2 : Int) ^ 31 = 2147483648 := by norm_num
  simp only [signOffset, h]
  split_ifs <;> omega

theorem inRange_iff (v : Int) :
    ¬ (v > MaxInt32 ∨ v < MinInt32) ↔ (-2147483648 ≤ v ∧ v ≤ 2147483647) := by
  simp only [MaxInt32, MinInt32]
  omega

/-! ## Sequences -/

theorem take_succ_set {α : Type} (l : List α) (i : Nat) (v : α) (h : i < l.length) :
    (l.set i v).take (i + 1) = l.take i ++ [v] := by
  induction l generalizing i with
  | nil => simp at h
  | cons a l ih =>
    cases i with
    | zero => simp
    | succ j =>
      simp only [List.length_cons, Nat.add_lt_add_iff_right] at h
      simp [ih j h]

/-- On a stream that never fails, a loop over element writers that each append
their wire form appends the wire forms in order. -/
theorem rangeWrite_unbounded {α : Type} (elem : Buffer → Sink → α → WriteResult)
    (enc : α → List Byte) (P : α → Prop)
    (h : ∀ (buf : Buffer) (w : Sink) (v : α), P v → w.room = none →
      (elem buf w v).w = ⟨w.data ++ enc v, none⟩ ∧ (elem buf w v).err = none)
    (vs : List α) (hP : ∀ v ∈ vs, P v) (buf : Buffer) (w : Sink) (hw : w.room = none) :
    (rangeWrite elem buf w vs).w = ⟨w.data ++ seqBody enc vs, none⟩
      ∧ (rangeWrite elem buf w vs).err = none := by
  induction vs generalizing buf w with
  | nil =>
    cases w with
    | mk d rm =>
      simp only at hw
      subst hw
      simp [rangeWrite, seqBody]
  | cons v vs ih =>
    obtain ⟨h1, h2⟩ := h buf w v (hP v (List.mem_cons_self v vs)) hw
    have ih1 := ih (fun u hu => hP u (List.mem_cons_of_mem v hu)) (elem buf w v).buf
      (elem buf w v).w (by rw [h1])
    simp only [rangeWrite, h2]
    rw [h1] at ih1 ⊢
    simpa [seqBody, List.append_assoc] using ih1

/-- A counted loop over element readers that each decode their wire form reads
the elements back in order into `values[i..]`. -/
theorem countRead_ok {α : Type} (elem : Buffer → Source → ReadResult α)
    (enc : α → List Byte) (P : α → Prop)
    (h : ∀ (buf : Buffer) (v : α) (t : List Byte) (f : Option Error), P v →
      (elem buf ⟨enc v ++ t, f⟩).err = none ∧ (elem buf ⟨enc v ++ t, f⟩).r = ⟨t, f⟩
        ∧ (elem buf ⟨enc v ++ t, f⟩).val = v)
    (vs : List α) (hP : ∀ v ∈ vs, P v) (i : Nat) (values : List α)
    (hlen : values.length = i + vs.length) (buf : Buffer) (t : List Byte) (f : Option Error) :
    (countRead elem vs.length i buf ⟨seqBody enc vs ++ t, f⟩ values).err = none
      ∧ (countRead elem vs.length i buf ⟨seqBody enc vs ++ t, f⟩ values).r = ⟨t, f⟩
      ∧ (countRead elem vs.length i buf ⟨seqBody enc vs ++ t, f⟩ values).val
          = Slice.data (values.take i ++ vs) := by
  induction vs generalizing i values buf with
  | nil =>
    simp only [List.length_nil, Nat.add_zero] at hlen
    simp [countRead, seqBody, ← hlen]
  | cons v vs ih =>
    obtain ⟨h1, h2, h3⟩ := h buf v (seqBody enc vs ++ t) f (hP v (List.mem_cons_self v vs))
    simp only [List.length_cons] at hlen
    have ih1 := ih (fun u hu => hP u (List.mem_cons_of_mem v hu)) (i + 1) (values.set i v)
      (by simp only [List.length_set]; omega) (elem buf ⟨enc v ++ (seqBody enc vs ++ t), f⟩).buf
    rw [take_succ_set values i v (by omega)] at ih1
    simp only [List.length_cons, countRead, seqBody, List.append_assoc, h1, h2, h3]
    simpa [List.append_assoc] using ih1

/-- The count-prefixed body of the sequence writers on a stream that never
fails. -/
theorem seqWrite_unbounded {α : Type} (elem : Buffer → Sink → α → WriteResult)
    (enc : α → List Byte) (P : α → Prop)
    (h : ∀ (buf : Buffer) (w : Sink) (v : α), P v → w.room = none →
      (elem buf w v).w = ⟨w.data ++ enc v, none⟩ ∧ (elem buf w v).err = none)
    (vs : List α) (hP : ∀ v ∈ vs, P v) (hn : vs.length ≤ 2147483647)
    (buf : Buffer) (w : Sink) (hw : w.room = none) :
    (match (buf.WriteInt w (vs.length : Int)).err with
      | some e => ({ buf := (buf.WriteInt w (vs.length : Int)).buf,
                     w := (buf.WriteInt w (vs.length : Int)).w, err := some e } : WriteResult)
      | none => rangeWrite elem (buf.WriteInt w (vs.length : Int)).buf
                  (buf.WriteInt w (vs.length : Int)).w vs).w
        = ⟨w.data ++ seqWire enc vs, none⟩
      ∧ (match (buf.WriteInt w (vs.length : Int)).err with
      | some e => ({ buf := (buf.WriteInt w (vs.length : Int)).buf,
                     w := (buf.WriteInt w (vs.length : Int)).w, err := some e } : WriteResult)
      | none => rangeWrite elem (buf.WriteInt w (vs.length : Int)).buf
                  (buf.WriteInt w (vs.length : Int)).w vs).err = none := by
  obtain ⟨h1, h2⟩ := buf.WriteInt_inRange w (vs.length : Int)
    ((inRange_iff _).mpr ⟨by omega, by omega⟩)
  rw [Sink.Write_unbounded w _ hw] at h1 h2
  simp only at h1 h2
  obtain ⟨g1, g2⟩ := rangeWrite_unbounded elem enc P h vs hP (buf.WriteInt w (vs.length : Int)).buf
    (buf.WriteInt w (vs.length : Int)).w (by rw [h1])
  simp only [h2]
  rw [h1] at g1 g2 ⊢
  simp only [g1, g2, seqWire, List.append_assoc, and_self]

/-- The body of the sequence readers on the wire form of a sequence. -/
theorem readSeq_ok {α : Type} (zero : α) (elem : Buffer → Source → ReadResult α)
    (enc : α → List Byte) (P : α → Prop)
    (h : ∀ (buf : Buffer) (v : α) (t : List Byte) (f : Option Error), P v →
      (elem buf ⟨enc v ++ t, f⟩).err = none ∧ (elem buf ⟨enc v ++ t, f⟩).r = ⟨t, f⟩
        ∧ (elem buf ⟨enc v ++ t, f⟩).val = v)
    (vs : List α) (hP : ∀ v ∈ vs, P v) (hn : vs.length ≤ 2147483647)
    (buf : Buffer) (t : List Byte) (f : Option Error) :
    ∃ buf1 : Buffer, readSeq zero elem buf ⟨seqWire enc vs ++ t, f⟩
      = Run.returned { buf := buf1, r := ⟨t, f⟩, val := Slice.data vs, err := none } := by
  obtain ⟨h1, h2, h3⟩ := buf.ReadInt_intWire (vs.length : Int) (by omega) (by omega)
    (seqBody enc vs ++ t) f
  obtain ⟨g1, g2, g3⟩ := countRead_ok elem enc P h vs hP 0 (List.replicate vs.length zero)
    (by simp) (buf.ReadInt ⟨intWire vs.length ++ (seqBody enc vs ++ t), f⟩).buf t f
  simp only [List.take_zero, List.nil_append] at g3
  refine ⟨(countRead elem vs.length 0
    (buf.ReadInt ⟨intWire vs.length ++ (seqBody enc vs ++ t), f⟩).buf
    ⟨seqBody enc vs ++ t, f⟩ (List.replicate vs.length zero)).buf, ?_⟩
  simp only [readSeq, seqWire, List.append_assoc, h1, h2, h3, Int.toNat_ofNat]
  rw [if_neg (by omega)]
  congr 1
  rw [← g1, ← g2, ← g3]

theorem seqBody_boolWire (bs : List Bool) :
    seqBody boolWire bs = bs.map (fun b => if b then (0x01 : Byte) else 0x00) := by
  induction bs with
  | nil => rfl
  | cons b bs ih => simp [seqBody, boolWire, ih]

theorem Buffer.WriteBool_unbounded (buf : Buffer) (w : Sink) (v : Bool) (_ : True)
    (hw : w.room = none) :
    (buf.WriteBool w v).w = ⟨w.data ++ boolWire v, none⟩ ∧ (buf.WriteBool w v).err = none := by
  obtain ⟨h1, h2⟩ := buf.WriteBool_out w v
  rw [Sink.Write_unbounded w _ hw] at h1 h2
  exact ⟨h1, h2⟩

theorem Buffer.ReadBool_boolWire (buf : Buffer) (v : Bool) (t : List Byte) (f : Option Error)
    (_ : True) :
    (buf.ReadBool ⟨boolWire v ++ t, f⟩).err = none
      ∧ (buf.ReadBool ⟨boolWire v ++ t, f⟩).r = ⟨t, f⟩
      ∧ (buf.ReadBool ⟨boolWire v ++ t, f⟩).val = v := by
  obtain ⟨h1, h2, h3⟩ := buf.ReadBool_ok (if v then 1 else 0) t f
  refine ⟨h1, h2, ?_⟩
  simp only [boolWire, List.singleton_append]
  rw [h3]
  cases v <;> decide

theorem Buffer.WriteInt_unbounded (buf : Buffer) (w : Sink) (v : Int)
    (hv : -2147483648 ≤ v ∧ v ≤ 2147483647) (hw : w.room = none) :
    (buf.WriteInt w v).w = ⟨w.data ++ intWire v, none⟩ ∧ (buf.WriteInt w v).err = none := by
  obtain ⟨h1, h2⟩ := buf.WriteInt_inRange w v ((inRange_iff v).mpr hv)
  rw [Sink.Write_unbounded w _ hw] at h1 h2
  exact ⟨h1, h2⟩

/-! ## 64-bit integers -/

theorem PutUint64_length (b : List Byte) (v : Nat) : (PutUint64 b v).length = b.length := by
  simp [PutUint64]

theorem PutUint64_eq (b : List Byte) (v : Nat) (h : b.length = 8) :
    PutUint64 b v = [byte (v / 2 ^ 56), byte (v / 2 ^ 48), byte (v / 2 ^ 40), byte (v / 2 ^ 32),
      byte (v / 2 ^ 24), byte (v / 2 ^ 16), byte (v / 2 ^ 8), byte v] := by
  rcases b with _ | ⟨b0, _ | ⟨b1, _ | ⟨b2, _ | ⟨b3, _ | ⟨b4, _ | ⟨b5, _ | ⟨b6, _ | ⟨b7,
    _ | ⟨b8, l⟩⟩⟩⟩⟩⟩⟩⟩⟩ <;> simp at h
  rfl

theorem beBytes_eight (u : Nat) :
    beBytes 8 u = [byte (u / 2 ^ 56), byte (u / 2 ^ 48), byte (u / 2 ^ 40), byte (u / 2 ^ 32),
      byte (u / 2 ^ 24), byte (u / 2 ^ 16), byte (u / 2 ^ 8), byte u] := by
  simp only [beBytes, List.nil_append, List.cons_append, List.cons.injEq, and_true]
  refine ⟨?_, ?_, ?_, ?_, ?_, ?_, ?_⟩ <;> (apply Fin.ext; simp only [byte]; omega)

theorem beValue_eight (a b c d e f g h : Byte) :
    beValue [a, b, c, d, e, f, g, h] = a.val * 2 ^ 56 + b.val * 2 ^ 48 + c.val * 2 ^ 40
      + d.val * 2 ^ 32 + e.val * 2 ^ 24 + f.val * 2 ^ 16 + g.val * 2 ^ 8 + h.val := by
  simp only [beValue, List.foldl]
  omega

theorem Uint64_eq_beValue (e : List Byte) (h : e.length = 8) : Uint64 e = beValue e := by
  rcases e with _ | ⟨b0, _ | ⟨b1, _ | ⟨b2, _ | ⟨b3, _ | ⟨b4, _ | ⟨b5, _ | ⟨b6, _ | ⟨b7,
    _ | ⟨b8, l⟩⟩⟩⟩⟩⟩⟩⟩⟩ <;> simp at h
  rw [beValue_eight]
  simp only [Uint64, List.getD_cons_zero, List.getD_cons_succ]
  have h0 := b0.isLt
  have h1 := b1.isLt
  have h2 := b2.isLt
  have h3 := b3.isLt
  have h4 := b4.isLt
  have h5 := b5.isLt
  have h6 := b6.isLt
  have h7 := b7.isLt
  omega

theorem beValue_beBytes_eight (u : Nat) : beValue (beBytes 8 u) = u % 18446744073709551616 := by
  rw [beBytes_eight, beValue_eight]
  simp only [byte]
  omega

theorem int64Wire_length (v : Int) : (int64Wire v).length = 8 := by
  simp [int64Wire, beBytes]

theorem toUint64_twosComplement (v : Int) (hlo : -9223372036854775808 ≤ v)
    (hhi : v ≤ 9223372036854775807) : toUint64 v = (twosComplement64 v).toNat := by
  have h : (2 : Int) ^ 64 = 18446744073709551616 := by norm_num
  simp only [toUint64, twosComplement64, h]
  congr 1
  split_ifs with h0
  · exact Int.emod_eq_of_lt h0 (by linarith)
  · rw [← Int.add_mul_emod_self (b := 1)]
    exact Int.emod_eq_of_lt (by linarith) (by linarith)

/-- The stream and the error after `WriteInt64` are those of one `Write` of the
8 big-endian bytes of `uint64(val)`. -/
theorem Buffer.WriteInt64_out (buf : Buffer) (w : Sink) (v : Int) :
    (buf.WriteInt64 w v).w = (w.Write (beBytes 8 (toUint64 v))).1
      ∧ (buf.WriteInt64 w v).err = (w.Write (beBytes 8 (toUint64 v))).2 := by
  have hlen := buf.borrow_len 8 (by decide)
  rcases hp : buf.borrow 8 with ⟨buf1, b⟩
  rw [hp] at hlen
  simp only [Int.toNat_ofNat, Slice.len] at hlen
  have hb : (b.withElems (PutUint64 b.toList (toUint64 v))).toList = beBytes 8 (toUint64 v) := by
    rw [Slice.withElems_toList _ _ (by simp [PutUint64_length, Slice.len]),
      PutUint64_eq _ _ hlen, beBytes_eight]
  simp only [Buffer.WriteInt64, hp, hb, and_self]

theorem Buffer.ReadInt64_ok (buf : Buffer) (e t : List Byte) (f : Option Error)
    (he : e.length = 8) :
    (buf.ReadInt64 ⟨e ++ t, f⟩).err = none
      ∧ (buf.ReadInt64 ⟨e ++ t, f⟩).r = ⟨t, f⟩
      ∧ (buf.ReadInt64 ⟨e ++ t, f⟩).val = wrapInt64 (beValue e) := by
  obtain ⟨h1, h2, h3⟩ := buf.Read_ok ⟨e ++ t, f⟩ 8 (by simp [he])
  have h4 : ((8 : Nat) : Int) = 8 := rfl
  rw [h4] at h1 h2 h3
  simp only [List.drop_append_of_le_length (le_of_eq he.symm),
    List.take_append_of_le_length (le_of_eq he.symm)] at h2 h3
  rw [← he, List.drop_length, List.nil_append] at h2
  rw [← he, List.take_length] at h3
  have hu := Uint64_eq_beValue e he
  unfold Buffer.ReadInt64
  simp only []
  rw [h1]
  simp only []
  rw [h2, h3, hu]
  exact ⟨trivial, rfl, rfl⟩

theorem wrapInt64_twosComplement (v : Int) (hlo : -9223372036854775808 ≤ v)
    (hhi : v ≤ 9223372036854775807) : wrapInt64 (twosComplement64 v) = v := by
  have h : (2 : Int) ^ 64 = 18446744073709551616 := by norm_num
  simp only [wrapInt64, twosComplement64, h]
  split_ifs with h0
  · rw [Int.emod_eq_of_lt (by linarith) (by linarith)]
    ring
  · have h1 : v + 18446744073709551616 + 9223372036854775808
        = (v + 9223372036854775808) + 1 * 18446744073709551616 := by ring
    rw [h1, Int.add_mul_emod_self, Int.emod_eq_of_lt (by linarith) (by linarith)]
    ring

theorem twosComplement64_bounds (v : Int) (hlo : -9223372036854775808 ≤ v)
    (hhi : v ≤ 9223372036854775807) :
    0 ≤ twosComplement64 v ∧ twosComplement64 v < 18446744073709551616 := by
  have h : (2 : Int) ^ 64 = 18446744073709551616 := by norm_num
  simp only [twosComplement64, h]
  split_ifs with h0 <;> constructor <;> linarith

theorem Buffer.ReadInt64_int64Wire (buf : Buffer) (v : Int) (hlo : -9223372036854775808 ≤ v)
    (hhi : v ≤ 9223372036854775807) (t : List Byte) (f : Option Error) :
    (buf.ReadInt64 ⟨int64Wire v ++ t, f⟩).err = none
      ∧ (buf.ReadInt64 ⟨int64Wire v ++ t, f⟩).r = ⟨t, f⟩
      ∧ (buf.ReadInt64 ⟨int64Wire v ++ t, f⟩).val = v := by
  obtain ⟨h1, h2, h3⟩ := buf.ReadInt64_ok (int64Wire v) t f (int64Wire_length v)
  refine ⟨h1, h2, ?_⟩
  obtain ⟨b1, b2⟩ := twosComplement64_bounds v hlo hhi
  have hv : ((beValue (int64Wire v) : Nat) : Int) = twosComplement64 v := by
    rw [int64Wire, beValue_beBytes_eight, Nat.mod_eq_of_lt, Int.toNat_of_nonneg b1]
    have := Int.toNat_lt b1 |>.mpr b2
    exact this
  rw [h3, hv, wrapInt64_twosComplement v hlo hhi]

theorem Sink.Write_err_ne_range (w : Sink) (p : List Byte) :
    (w.Write p).2 ≠ some Error.range := by
  unfold Sink.Write
  split
  · simp
  · split_ifs <;> simp

/-! ## Strings -/

theorem copy_same_length (dst src : List Byte) (h : dst.length = src.length) :
    copy dst src = src := by
  simp [copy, h]

/-- After `b := borrow(len(val)); copy(b, val)` the view holds the bytes of `val`,
whatever the buffer held. -/
theorem Buffer.borrow_copy (buf : Buffer) (val : List Byte) :
    ((buf.borrow (val.length : Int)).2.withElems
      (copy (buf.borrow (val.length : Int)).2.toList val)).toList = val := by
  have hlen := buf.borrow_len (val.length : Int) (Int.ofNat_nonneg _)
  simp only [Int.toNat_ofNat, Slice.len] at hlen
  rw [copy_same_length _ _ hlen]
  exact Slice.withElems_toList _ _ (by simp [Slice.len, hlen])

/-- The stream and the error after `WriteString`: those of `WriteInt` of the
byte count, followed when that succeeded by one `Write` of the bytes. -/
theorem Buffer.WriteString_out (buf : Buffer) (w : Sink) (val : List Byte) :
    (buf.WriteString w val).w
        = (match (buf.WriteInt w (val.length : Int)).err with
          | some _ => (buf.WriteInt w (val.length : Int)).w
          | none => ((buf.WriteInt w (val.length : Int)).w.Write val).1)
      ∧ (buf.WriteString w val).err
        = (match (buf.WriteInt w (val.length : Int)).err with
          | some e => some e
          | none => ((buf.WriteInt w (val.length : Int)).w.Write val).2) := by
  unfold Buffer.WriteString
  simp only []
  cases he : (buf.WriteInt w (val.length : Int)).err with
  | some e => exact ⟨rfl, rfl⟩
  | none =>
    simp only []
    rw [(buf.WriteInt w (val.length : Int)).buf.borrow_copy val]
    exact ⟨rfl, rfl⟩

theorem Buffer.WriteString_unbounded (buf : Buffer) (w : Sink) (val : List Byte)
    (hn : val.length ≤ 2147483647) (hw : w.room = none) :
    (buf.WriteString w val).w = ⟨w.data ++ stringWire val, none⟩
      ∧ (buf.WriteString w val).err = none := by
  obtain ⟨h1, h2⟩ := buf.WriteString_out w val
  obtain ⟨g1, g2⟩ := buf.WriteInt_unbounded w (val.length : Int) ⟨by omega, by omega⟩ hw
  rw [g2] at h1 h2
  simp only [g1] at h1 h2
  rw [Sink.Write_unbounded _ _ rfl] at h1 h2
  refine ⟨?_, h2⟩
  rw [h1]
  simp [stringWire, List.append_assoc]

theorem Buffer.ReadString_stringWire (buf : Buffer) (val : List Byte) (t : List Byte)
    (f : Option Error) (hn : val.length ≤ 2147483647) :
    (buf.ReadString ⟨stringWire val ++ t, f⟩).err = none
      ∧ (buf.ReadString ⟨stringWire val ++ t, f⟩).r = ⟨t, f⟩
      ∧ (buf.ReadString ⟨stringWire val ++ t, f⟩).val = val := by
  obtain ⟨h1, h2, h3⟩ := buf.ReadInt_intWire (val.length : Int) (by omega) (by omega)
    (val ++ t) f
  obtain ⟨g1, g2, g3⟩ := (buf.ReadInt ⟨intWire val.length ++ (val ++ t), f⟩).buf.Read_ok
    ⟨val ++ t, f⟩ val.length (by simp)
  simp only [List.drop_left, List.take_left] at g2 g3
  unfold Buffer.ReadString
  simp only [stringWire, List.append_assoc]
  rw [h1]
  simp only []
  rw [h2, h3, g1, g2, g3]
  exact ⟨rfl, rfl, rfl⟩

/-! ## Independence of the buffer's prior state -/

theorem Buffer.WriteByteValue_free : BufferFree Buffer.WriteByteValue := by
  intro buf1 buf2 w v
  obtain ⟨h1, h2⟩ := buf1.WriteByteValue_out w v
  obtain ⟨g1, g2⟩ := buf2.WriteByteValue_out w v
  exact ⟨h1.trans g1.symm, h2.trans g2.symm⟩

theorem Buffer.WriteBool_free : BufferFree Buffer.WriteBool := by
  intro buf1 buf2 w v
  obtain ⟨h1, h2⟩ := buf1.WriteBool_out w v
  obtain ⟨g1, g2⟩ := buf2.WriteBool_out w v
  exact ⟨h1.trans g1.symm, h2.trans g2.symm⟩

theorem Buffer.WriteInt_free : BufferFree Buffer.WriteInt := by
  intro buf1 buf2 w v
  by_cases h : v > MaxInt32 ∨ v < MinInt32
  · rw [buf1.WriteInt_outOfRange w v h, buf2.WriteInt_outOfRange w v h]
    exact ⟨rfl, rfl⟩
  · obtain ⟨h1, h2⟩ := buf1.WriteInt_inRange w v h
    obtain ⟨g1, g2⟩ := buf2.WriteInt_inRange w v h
    exact ⟨h1.trans g1.symm, h2.trans g2.symm⟩

theorem Buffer.WriteInt64_free : BufferFree Buffer.WriteInt64 := by
  intro buf1 buf2 w v
  obtain ⟨h1, h2⟩ := buf1.WriteInt64_out w v
  obtain ⟨g1, g2⟩ := buf2.WriteInt64_out w v
  exact ⟨h1.trans g1.symm, h2.trans g2.symm⟩

theorem Buffer.WriteString_free : BufferFree Buffer.WriteString := by
  intro buf1 buf2 w v
  obtain ⟨h1, h2⟩ := buf1.WriteString_out w v
  obtain ⟨g1, g2⟩ := buf2.WriteString_out w v
  obtain ⟨k1, k2⟩ := Buffer.WriteInt_free buf1 buf2 w (v.length : Int)
  rw [h1, h2, g1, g2, k1, k2]
  exact ⟨rfl, rfl⟩

theorem Buffer.WriteByteValues_free : BufferFree Buffer.WriteByteValues := by
  intro buf1 buf2 w v
  obtain ⟨k1, k2⟩ := Buffer.WriteInt_free buf1 buf2 w (v.length : Int)
  unfold Buffer.WriteByteValues
  simp only []
  rw [k1, k2]
  cases (buf2.WriteInt w (v.length : Int)).err with
  | some e => exact ⟨rfl, rfl⟩
  | none => exact ⟨rfl, rfl⟩

/-- The loop over the elements does not depend on the buffer when the element
writer does not. -/
theorem rangeWrite_free {α : Type} (elem : Buffer → Sink → α → WriteResult)
    (h : BufferFree elem) (vs : List α) (buf1 buf2 : Buffer) (w : Sink) :
    (rangeWrite elem buf1 w vs).w = (rangeWrite elem buf2 w vs).w
      ∧ (rangeWrite elem buf1 w vs).err = (rangeWrite elem buf2 w vs).err := by
  induction vs generalizing buf1 buf2 w with
  | nil => exact ⟨rfl, rfl⟩
  | cons v vs ih =>
    obtain ⟨h1, h2⟩ := h buf1 buf2 w v
    simp only [rangeWrite]
    rw [h2]
    cases (elem buf2 w v).err with
    | some e => exact ⟨h1, rfl⟩
    | none =>
      simp only []
      rw [h1]
      exact ih (elem buf1 w v).buf (elem buf2 w v).buf (elem buf2 w v).w

/-- The count-prefixed body of the sequence writers does not depend on the
buffer when the element writer does not. -/
theorem seqWrite_free {α : Type} (elem : Buffer → Sink → α → WriteResult)
    (h : BufferFree elem) (vs : List α) (buf1 buf2 : Buffer) (w : Sink) :
    (match (buf1.WriteInt w (vs.length : Int)).err with
      | some e => ({ buf := (buf1.WriteInt w (vs.length : Int)).buf,
                     w := (buf1.WriteInt w (vs.length : Int)).w, err := some e } : WriteResult)
      | none => rangeWrite elem (buf1.WriteInt w (vs.length : Int)).buf
                  (buf1.WriteInt w (vs.length : Int)).w vs).w
        = (match (buf2.WriteInt w (vs.length : Int)).err with
      | some e => ({ buf := (buf2.WriteInt w (vs.length : Int)).buf,
                     w := (buf2.WriteInt w (vs.length : Int)).w, err := some e } : WriteResult)
      | none => rangeWrite elem (buf2.WriteInt w (vs.length : Int)).buf
                  (buf2.WriteInt w (vs.length : Int)).w vs).w
      ∧ (match (buf1.WriteInt w (vs.length : Int)).err with
      | some e => ({ buf := (buf1.WriteInt w (vs.length : Int)).buf,
                     w := (buf1.WriteInt w (vs.length : Int)).w, err := some e } : WriteResult)
      | none => rangeWrite elem (buf1.WriteInt w (vs.length : Int)).buf
                  (buf1.WriteInt w (vs.length : Int)).w vs).err
        = (match (buf2.WriteInt w (vs.length : Int)).err with
      | some e => ({ buf := (buf2.WriteInt w (vs.length : Int)).buf,
                     w := (buf2.WriteInt w (vs.length : Int)).w, err := some e } : WriteResult)
      | none => rangeWrite elem (buf2.WriteInt w (vs.length : Int)).buf
                  (buf2.WriteInt w (vs.length : Int)).w vs).err := by
  obtain ⟨k1, k2⟩ := Buffer.WriteInt_free buf1 buf2 w (vs.length : Int)
  rw [k2]
  cases (buf2.WriteInt w (vs.length : Int)).err with
  | some e => exact ⟨k1, rfl⟩
  | none =>
    simp only []
    rw [k1]
    exact rangeWrite_free elem h vs _ _ _

theorem WriteOp.run_free (op : WriteOp) (buf1 buf2 : Buffer) (w : Sink) :
    (op.run buf1 w).w = (op.run buf2 w).w ∧ (op.run buf1 w).err = (op.run buf2 w).err := by
  cases op with
  | bool val => exact Buffer.WriteBool_free buf1 buf2 w val
  | bools val => exact seqWrite_free Buffer.WriteBool Buffer.WriteBool_free val buf1 buf2 w
  | byteValue val => exact Buffer.WriteByteValue_free buf1 buf2 w val
  | byteValues val => exact Buffer.WriteByteValues_free buf1 buf2 w val
  | int val => exact Buffer.WriteInt_free buf1 buf2 w val
  | ints val => exact seqWrite_free Buffer.WriteInt Buffer.WriteInt_free val buf1 buf2 w
  | int64 val => exact Buffer.WriteInt64_free buf1 buf2 w val
  | int64s val => exact seqWrite_free Buffer.WriteInt64 Buffer.WriteInt64_free val buf1 buf2 w
  | string val => exact Buffer.WriteString_free buf1 buf2 w val
  | strings val => exact seqWrite_free Buffer.WriteString Buffer.WriteString_free val buf1 buf2 w

theorem runShared_eq_runFresh (ops : List (WriteOp × Buffer)) (buf : Buffer) (w : Sink) :
    runShared (ops.map Prod.fst) buf w = runFresh ops w := by
  induction ops generalizing buf w with
  | nil => rfl
  | cons p ops ih =>
    obtain ⟨op, b⟩ := p
    obtain ⟨h1, h2⟩ := op.run_free buf b w
    simp only [List.map_cons, runShared, runFresh]
    rw [ih (op.run buf w).buf (op.run buf w).w, h1, h2]

/-! ## The borrow operation and the exact read -/

theorem Buffer.borrow_neg (buf : Buffer) (n : Int) (h : n < 0) :
    buf.borrow n = (buf, buf.b) := by
  simp only [Buffer.borrow, if_pos h]

theorem Slice.upTo_len {α : Type} (s : Slice α) : s.upTo s.len = s := by
  cases s with
  | nil => rfl
  | data l => simp [Slice.upTo, Slice.len, Slice.toList]

theorem Buffer.borrow_grow (buf : Buffer) (n : Int) (h0 : 0 ≤ n) (h : (buf.b.len : Int) < n) :
    buf.borrow n = ({ buf with b := make 0 n.toNat }, make 0 n.toNat) := by
  simp only [Buffer.borrow, if_neg (not_lt.mpr h0), gt_iff_lt, if_pos h]
  simp [make, Slice.upTo]

theorem Buffer.borrow_keep (buf : Buffer) (n : Int) (h0 : 0 ≤ n) (h : n ≤ (buf.b.len : Int)) :
    buf.borrow n = (buf, buf.b.upTo n.toNat) := by
  simp only [Buffer.borrow, if_neg (not_lt.mpr h0), gt_iff_lt, if_neg (not_lt.mpr h)]

theorem make_len (n : Nat) : (make (0 : Byte) n).len = n := by
  simp [make, Slice.len, Slice.toList]

/-- A negative size borrows what the full length of the region borrows. -/
theorem Buffer.borrow_neg_eq (buf : Buffer) (n : Int) (h : n < 0) :
    buf.borrow n = buf.borrow (buf.b.len : Int) := by
  rw [buf.borrow_neg n h, buf.borrow_keep _ (Int.ofNat_nonneg _) (le_refl _), Int.toNat_ofNat,
    Slice.upTo_len]

/-- A read of more bytes than the stream holds: the nil view and the stream's
error, the stream being used up. -/
theorem Buffer.Read_short (buf : Buffer) (r : Source) (n : Nat) (h : r.data.length < n) :
    (buf.Read r n).val = Slice.nil
      ∧ (buf.Read r n).err = some (match r.fault with
          | some e => e
          | none => if r.data.length = 0 then Error.eof else Error.unexpectedEOF)
      ∧ (buf.Read r n).r = { data := [], fault := r.fault } := by
  have hlen := buf.borrow_len n (Int.ofNat_nonneg n)
  rcases hp : buf.borrow n with ⟨buf1, b⟩
  rw [hp] at hlen
  simp only [Int.toNat_ofNat, Slice.len] at hlen
  have h1 : ¬ b.toList.length = 0 := by omega
  have h2 : ¬ b.toList.length ≤ r.data.length := by omega
  simp only [Buffer.Read, hp, ReadFull, if_neg h1, if_neg h2, and_self]

/-! ## The write wrapper -/

theorem Writer.call_eq_do (wr : Writer) (c : WriterCall) : wr.call c = wr.do c.fn := by
  cases c <;> rfl

theorem Writer.do_latched (wr : Writer) (fn : Buffer → Sink → WriteResult) (e : Error)
    (he : wr.err = some e) (hs : wr.stopOnError = true) : wr.do fn = (wr, some e) := by
  simp [Writer.do, he, hs]

theorem Writer.do_attempt (wr : Writer) (fn : Buffer → Sink → WriteResult)
    (h : wr.err = none ∨ wr.stopOnError = false) :
    wr.do fn = ({ wr with buf := (fn wr.buf wr.w).buf, w := (fn wr.buf wr.w).w,
                          err := (fn wr.buf wr.w).err }, (fn wr.buf wr.w).err) := by
  have hc : ¬ (wr.err ≠ none ∧ wr.stopOnError = true) := by
    rcases h with h | h
    · simp [h]
    · simp [h]
  simp only [Writer.do, if_neg hc]

theorem Writer.do_err (wr : Writer) (fn : Buffer → Sink → WriteResult) :
    (wr.do fn).1.err = (wr.do fn).2 := by
  unfold Writer.do
  split_ifs <;> rfl

theorem Writer.do_mode (wr : Writer) (fn : Buffer → Sink → WriteResult) :
    (wr.do fn).1.stopOnError = wr.stopOnError := by
  unfold Writer.do
  split_ifs <;> rfl

theorem Writer.calls_latched (wr : Writer) (e : Error) (he : wr.err = some e)
    (hs : wr.stopOnError = true) (cs : List WriterCall) :
    wr.calls cs = (wr, List.replicate cs.length (some e)) := by
  induction cs with
  | nil => rfl
  | cons c cs ih =>
    simp only [Writer.calls, Writer.call_eq_do, wr.do_latched c.fn e he hs, ih,
      List.length_cons, List.replicate_succ]

theorem Writer.calls_append (wr : Writer) (cs : List WriterCall) (c : WriterCall) :
    wr.calls (cs ++ [c])
      = (((wr.calls cs).1.call c).1, (wr.calls cs).2 ++ [((wr.calls cs).1.call c).2]) := by
  induction cs generalizing wr with
  | nil => rfl
  | cons d cs ih =>
    show (((wr.call d).1.calls (cs ++ [c])).1, (wr.call d).2 :: ((wr.call d).1.calls (cs ++ [c])).2)
      = _
    rw [ih (wr.call d).1]
    rfl

theorem lastFailure_replicate (e : Error) (k : Nat) :
    lastFailure (some e :: List.replicate k (some e)) = some e := by
  induction k with
  | zero => rfl
  | succ k ih =>
    rw [List.replicate_succ]
    simp only [lastFailure] at ih ⊢
    rw [ih]

/-- In strict mode, starting with no stored error, the stored error after a
sequence of calls is the last non-nil error the calls returned. -/
theorem Writer.calls_strict (wr : Writer) (hs : wr.stopOnError = true) (he : wr.err = none)
    (cs : List WriterCall) : (wr.calls cs).1.err = lastFailure (wr.calls cs).2 := by
  induction cs generalizing wr with
  | nil => simpa [Writer.calls, lastFailure] using he
  | cons c cs ih =>
    have hm : (wr.call c).1.stopOnError = true := by
      rw [Writer.call_eq_do, Writer.do_mode, hs]
    have hr : (wr.call c).1.err = (wr.call c).2 := by
      rw [Writer.call_eq_do, Writer.do_err]
    cases h2 : (wr.call c).2 with
    | none =>
      rw [h2] at hr
      have := ih (wr.call c).1 hm hr
      simp only [Writer.calls, h2, lastFailure, this]
      cases lastFailure ((wr.call c).1.calls cs).2 <;> rfl
    | some e =>
      rw [h2] at hr
      simp only [Writer.calls, h2, (wr.call c).1.calls_latched e hr hm cs,
        lastFailure_replicate, hr]

/-! ## Byte sequences, serializable values and float64 -/

theorem seqBody_single (l : List Byte) : seqBody (fun c => [c]) l = l := by
  induction l with
  | nil => rfl
  | cons c l ih => simp [seqBody, ih]

theorem Buffer.WriteByteValues_unbounded (buf : Buffer) (w : Sink) (val : List Byte)
    (hn : val.length ≤ 2147483647) (hw : w.room = none) :
    (buf.WriteByteValues w val).w = ⟨w.data ++ (intWire val.length ++ val), none⟩
      ∧ (buf.WriteByteValues w val).err = none := by
  obtain ⟨g1, g2⟩ := buf.WriteInt_unbounded w (val.length : Int) ⟨by omega, by omega⟩ hw
  unfold Buffer.WriteByteValues
  simp only []
  rw [g2]
  simp only []
  rw [g1, Sink.Write_unbounded _ _ rfl]
  simp [List.append_assoc]

theorem Buffer.WriteByteValues_tooLong (buf : Buffer) (w : Sink) (val : List Byte)
    (hn : 2147483647 < val.length) :
    buf.WriteByteValues w val = { buf := buf, w := w, err := some Error.range } := by
  have h := buf.WriteInt_outOfRange w (val.length : Int) (Or.inl (by simp only [MaxInt32]; omega))
  unfold Buffer.WriteByteValues
  simp only []
  rw [h]

theorem Buffer.ReadByteValues_ok (buf : Buffer) (val : List Byte) (hn : val.length ≤ 2147483647)
    (t : List Byte) (f : Option Error) :
    ∃ buf1 : Buffer, buf.ReadByteValues ⟨(intWire val.length ++ val) ++ t, f⟩
      = Run.returned { buf := buf1, r := ⟨t, f⟩, val := Slice.data val, err := none } := by
  obtain ⟨buf1, h⟩ := readSeq_ok (0 : Byte) Buffer.ReadByteValue (fun c => [c]) (fun _ => True)
    (fun buf v t f _ => buf.ReadByteValue_ok v t f) val (fun _ _ => trivial) hn buf t f
  simp only [seqWire, seqBody_single] at h
  exact ⟨buf1, h⟩

/-- On a value that is not buffer-aware and whose `Serialize` returns no error,
`WriteSerializable` is `WriteByteValues` on the serialized bytes. -/
theorem Buffer.WriteSerializable_generic (buf : Buffer) (w : Sink) (val : Serializable)
    (hg : val.asBufRW = none) (hs : val.Serialize.2 = none) :
    buf.WriteSerializable w val = buf.WriteByteValues w val.Serialize.1.toList := by
  rcases hp : val.Serialize with ⟨b, err⟩
  rw [hp] at hs
  simp only at hs
  subst hs
  simp only [Buffer.WriteSerializable, hg, hp]

/-- The stream and the error after `WriteFloat64` are those of one `Write` of the
8 big-endian bytes of the bit pattern. -/
theorem Buffer.WriteFloat64_out (buf : Buffer) (w : Sink) (v : Float64) :
    (buf.WriteFloat64 w v).w = (w.Write (beBytes 8 v.bits)).1
      ∧ (buf.WriteFloat64 w v).err = (w.Write (beBytes 8 v.bits)).2 := by
  have hlen := buf.borrow_len 8 (by decide)
  rcases hp : buf.borrow 8 with ⟨buf1, b⟩
  rw [hp] at hlen
  simp only [Int.toNat_ofNat, Slice.len] at hlen
  have hb : (b.withElems (PutUint64 b.toList (Float64bits v))).toList = beBytes 8 v.bits := by
    rw [Slice.withElems_toList _ _ (by simp [PutUint64_length, Slice.len]),
      PutUint64_eq _ _ hlen, beBytes_eight, Float64bits]
  simp only [Buffer.WriteFloat64, hp, hb, and_self]

theorem beBytes_length (k u : Nat) : (beBytes k u).length = k := by
  induction k generalizing u with
  | zero => rfl
  | succ k ih => simp [beBytes, ih]

theorem Buffer.ReadFloat64_ok (buf : Buffer) (e t : List Byte) (f : Option Error)
    (he : e.length = 8) :
    (buf.ReadFloat64 ⟨e ++ t, f⟩).err = none
      ∧ (buf.ReadFloat64 ⟨e ++ t, f⟩).r = ⟨t, f⟩
      ∧ (buf.ReadFloat64 ⟨e ++ t, f⟩).val = Float64frombits (beValue e) := by
  obtain ⟨h1, h2, h3⟩ := buf.Read_ok ⟨e ++ t, f⟩ 8 (by simp [he])
  have h4 : ((8 : Nat) : Int) = 8 := rfl
  rw [h4] at h1 h2 h3
  simp only [List.drop_append_of_le_length (le_of_eq he.symm),
    List.take_append_of_le_length (le_of_eq he.symm)] at h2 h3
  rw [← he, List.drop_length, List.nil_append] at h2
  rw [← he, List.take_length] at h3
  have hu := Uint64_eq_beValue e he
  unfold Buffer.ReadFloat64
  simp only []
  rw [h1]
  simp only []
  rw [h2, h3, hu]
  exact ⟨trivial, rfl, rfl⟩

theorem Float64frombits_bits (v : Float64) : Float64frombits v.bits = v := by
  cases v with
  | mk b hb => simp [Float64frombits, Nat.mod_eq_of_lt hb]

/-! ## Reads on arbitrary streams -/

theorem ReadFull_length (r : Source) (b : List Byte) : (ReadFull r b).2.1.length = b.length := by
  unfold ReadFull
  by_cases h1 : b.length = 0
  · simp only [if_pos h1]
  · by_cases h2 : b.length ≤ r.data.length
    · simp only [if_neg h1, if_pos h2, List.length_take]
      omega
    · simp only [if_neg h1, if_neg h2, List.length_append, List.length_drop]
      omega

theorem Slice.withElems_len {α : Type} (s : Slice α) (l : List α) (h : l.length = s.len) :
    (s.withElems l).len = s.len := by
  show (s.withElems l).toList.length = s.len
  rw [Slice.withElems_toList s l h, h]

theorem Buffer.alias_len (buf : Buffer) (view : Slice Byte) (h : view.len ≤ buf.b.len) :
    (buf.alias view).b.len = buf.b.len := by
  unfold Buffer.alias
  apply Slice.withElems_len
  simp only [List.length_append, List.length_drop, Slice.len] at h ⊢
  omega

theorem Buffer.borrow_region_len (buf : Buffer) (n : Int) (h0 : 0 ≤ n) :
    (buf.borrow n).1.b.len = max buf.b.len n.toNat := by
  by_cases h : (buf.b.len : Int) < n
  · rw [buf.borrow_grow n h0 h]
    show (make (0 : Byte) n.toNat).len = max buf.b.len n.toNat
    rw [make_len]
    omega
  · rw [buf.borrow_keep n h0 (not_lt.mp h)]
    simp only
    omega

theorem Buffer.borrow_view_le (buf : Buffer) (n : Int) :
    (buf.borrow n).2.len ≤ (buf.borrow n).1.b.len := by
  by_cases h0 : n < 0
  · rw [buf.borrow_neg n h0]
  · rw [buf.borrow_len n (not_lt.mp h0), buf.borrow_region_len n (not_lt.mp h0)]
    exact le_max_right _ _

/-- After `Read` the internal region has the length `borrow` gave it. -/
theorem Buffer.Read_buf_len (buf : Buffer) (r : Source) (n : Int) :
    (buf.Read r n).buf.b.len = (buf.borrow n).1.b.len := by
  have hle := buf.borrow_view_le n
  rcases hp : buf.borrow n with ⟨buf1, b⟩
  rw [hp] at hle
  simp only at hle
  have hb : (b.withElems (ReadFull r b.toList).2.1).len = b.len :=
    Slice.withElems_len _ _ (by rw [ReadFull_length]; rfl)
  have ha : (buf1.alias (b.withElems (ReadFull r b.toList).2.1)).b.len = buf1.b.len :=
    Buffer.alias_len _ _ (by rw [hb]; exact hle)
  simp only [Buffer.Read, hp]
  split <;> exact ha

theorem Buffer.ReadInt_buf_len (buf : Buffer) (r : Source) :
    (buf.ReadInt r).buf.b.len = max buf.b.len 4 := by
  have h := buf.Read_buf_len r 4
  rw [buf.borrow_region_len 4 (by decide)] at h
  unfold Buffer.ReadInt
  simp only []
  split
  · exact h
  · split <;> exact h

theorem Buffer.ReadInt_short (buf : Buffer) (r : Source) (h : r.data.length < 4) :
    (buf.ReadInt r).err ≠ none := by
  obtain ⟨_, h2, _⟩ := buf.Read_short r 4 h
  have h4 : ((4 : Nat) : Int) = 4 := rfl
  rw [h4] at h2
  unfold Buffer.ReadInt
  simp only []
  rw [h2]
  simp

/-- A successful `ReadInt` on any stream: at least 4 bytes were there, they are
consumed, and the value follows the decoding rule. -/
theorem Buffer.ReadInt_success (buf : Buffer) (r : Source) (h : (buf.ReadInt r).err = none) :
    4 ≤ r.data.length
      ∧ (buf.ReadInt r).r = { data := r.data.drop 4, fault := r.fault }
      ∧ (buf.ReadInt r).val = intDecode (beValue (r.data.take 4)) := by
  have h4 : 4 ≤ r.data.length := by
    by_contra hc
    exact buf.ReadInt_short r (not_le.mp hc) h
  obtain ⟨_, g2, g3⟩ := buf.ReadInt_ok (r.data.take 4) (r.data.drop 4) r.fault
    (by rw [List.length_take]; omega)
  have hr : (⟨r.data.take 4 ++ r.data.drop 4, r.fault⟩ : Source) = r := by
    rw [List.take_append_drop]
  rw [hr] at g2 g3
  refine ⟨h4, g2, ?_⟩
  rw [g3, intDecode]
  have hp : (2 : Int) ^ 31 - 1 = 2147483647 := by norm_num
  rw [hp]

/-- A read with a negative size is the read of the full length of the region. -/
theorem Buffer.Read_neg_eq (buf : Buffer) (r : Source) (n : Int) (h : n < 0) :
    buf.Read r n = buf.Read r (buf.b.len : Int) := by
  simp only [Buffer.Read, buf.borrow_neg_eq n h]

/-- A successful `Read` of `n ≥ 0` bytes on any stream. -/
theorem Buffer.Read_success (buf : Buffer) (r : Source) (n : Nat)
    (h : (buf.Read r n).err = none) :
    n ≤ r.data.length
      ∧ (buf.Read r n).val.toList = r.data.take n
      ∧ (buf.Read r n).r = { data := r.data.drop n, fault := r.fault } := by
  have hn : n ≤ r.data.length := by
    by_contra hc
    obtain ⟨_, h2, _⟩ := buf.Read_short r n (not_le.mp hc)
    rw [h2] at h
    cases h
  obtain ⟨_, h2, h3⟩ := buf.Read_ok r n hn
  exact ⟨hn, h3, h2⟩

theorem Buffer.ReadString_unfold (buf : Buffer) (r : Source) (h : (buf.ReadInt r).err = none) :
    buf.ReadString r
      = { buf := ((buf.ReadInt r).buf.Read (buf.ReadInt r).r (buf.ReadInt r).val).buf,
          r := ((buf.ReadInt r).buf.Read (buf.ReadInt r).r (buf.ReadInt r).val).r,
          val := ((buf.ReadInt r).buf.Read (buf.ReadInt r).r (buf.ReadInt r).val).val.toList,
          err := ((buf.ReadInt r).buf.Read (buf.ReadInt r).r (buf.ReadInt r).val).err } := by
  unfold Buffer.ReadString
  simp only []
  rw [h]

theorem Buffer.ReadString_prefix_ok (buf : Buffer) (r : Source)
    (h : (buf.ReadString r).err = none) : (buf.ReadInt r).err = none := by
  cases hx : (buf.ReadInt r).err with
  | none => rfl
  | some e =>
    exfalso
    unfold Buffer.ReadString at h
    simp only [] at h
    rw [hx] at h
    cases h

/-! ## Sequence decoders on arbitrary streams -/

/-- The counted loop returns: no error and a non-nil sequence as long as
`values`, or an error and nil. -/
theorem countRead_returns {α : Type} (elem : Buffer → Source → ReadResult α)
    (k i : Nat) (buf : Buffer) (r : Source) (values : List α) :
    ((countRead elem k i buf r values).err = none
        ∧ ∃ vs : List α, (countRead elem k i buf r values).val = Slice.data vs
          ∧ vs.length = values.length)
      ∨ (∃ e : Error, (countRead elem k i buf r values).err = some e
        ∧ (countRead elem k i buf r values).val = Slice.nil) := by
  induction k generalizing i buf r values with
  | zero => exact Or.inl ⟨rfl, values, rfl, rfl⟩
  | succ k ih =>
    cases h : (elem buf r).err with
    | some e =>
      right
      refine ⟨e, ?_, ?_⟩ <;> simp only [countRead, h]
    | none =>
      have := ih (i + 1) (elem buf r).buf (elem buf r).r (values.set i (elem buf r).val)
      simp only [List.length_set] at this
      simpa only [countRead, h] using this

theorem readSeq_contract {α : Type} (zero : α) (elem : Buffer → Source → ReadResult α) :
    ReturnsUnlessNegativeCount (readSeq zero elem) := by
  intro buf r
  refine ⟨?_, ?_, ?_⟩
  · intro e he
    simp only [readSeq, he]
  · intro he hn
    refine ⟨countRead elem (buf.ReadInt r).val.toNat 0 (buf.ReadInt r).buf (buf.ReadInt r).r
      (List.replicate (buf.ReadInt r).val.toNat zero), ?_, ?_⟩
    · simp only [readSeq, he, if_neg (not_lt.mpr hn)]
    · rcases countRead_returns elem (buf.ReadInt r).val.toNat 0 (buf.ReadInt r).buf
        (buf.ReadInt r).r (List.replicate (buf.ReadInt r).val.toNat zero) with
        ⟨h1, vs, h2, h3⟩ | h1
      · left
        refine ⟨h1, vs, h2, ?_⟩
        rw [h3, List.length_replicate, Int.toNat_of_nonneg hn]
      · exact Or.inr h1
  · intro he hn
    simp only [readSeq, he, if_pos hn]

/-! ## A sequence write that stops, and the decoding of every pattern -/

/-- On a stream that never fails, the loop over `WriteInt` writes the elements
before the first one out of range, returns the range error at that one and
writes nothing more. -/
theorem rangeWrite_WriteInt_stops (pre : List Int) (bad : Int) (post : List Int)
    (hpre : ∀ v ∈ pre, -2147483648 ≤ v ∧ v ≤ 2147483647)
    (hbad : bad > MaxInt32 ∨ bad < MinInt32) (buf : Buffer) (w : Sink) (hw : w.room = none) :
    (rangeWrite Buffer.WriteInt buf w (pre ++ bad :: post)).w
        = ⟨w.data ++ seqBody intWire pre, none⟩
      ∧ (rangeWrite Buffer.WriteInt buf w (pre ++ bad :: post)).err = some Error.range := by
  induction pre generalizing buf w with
  | nil =>
    cases w with
    | mk d rm =>
      simp only at hw
      subst hw
      simp [rangeWrite, seqBody, Buffer.WriteInt_outOfRange _ _ bad hbad]
  | cons v pre ih =>
    obtain ⟨h1, h2⟩ := buf.WriteInt_unbounded w v (hpre v (List.mem_cons_self v pre)) hw
    have ih1 := ih (fun u hu => hpre u (List.mem_cons_of_mem v hu)) (buf.WriteInt w v).buf
      (buf.WriteInt w v).w (by rw [h1])
    simp only [List.cons_append, rangeWrite, h2]
    rw [h1] at ih1 ⊢
    simpa [seqBody, List.append_assoc] using ih1

theorem seqBody_intWire_length (vs : List Int) : (seqBody intWire vs).length = 4 * vs.length := by
  induction vs with
  | nil => rfl
  | cons v vs ih =>
    simp only [seqBody, List.length_append, intWire_length, ih, List.length_cons]
    omega

theorem beValue_four_lt (b0 b1 b2 b3 : Byte) : beValue [b0, b1, b2, b3] < 4294967296 := by
  rw [beValue_four]
  have h0 := b0.isLt
  have h1 := b1.isLt
  have h2 := b2.isLt
  have h3 := b3.isLt
  omega

/-- The big-endian bytes of the value of four bytes are these four bytes. -/
theorem beBytes_beValue_four (b0 b1 b2 b3 : Byte) :
    beBytes 4 (beValue [b0, b1, b2, b3]) = [b0, b1, b2, b3] := by
  rw [beBytes_four, beValue_four]
  have h0 := b0.isLt
  have h1 := b1.isLt
  have h2 := b2.isLt
  have h3 := b3.isLt
  simp only [List.cons.injEq, and_true]
  refine ⟨?_, ?_, ?_, ?_⟩ <;> (apply Fin.ext; simp only [byte]; omega)

/-- The value decoded from any four bytes is in the int32 range, and its
sign-offset number is the stored number again. -/
theorem ReadInt_val_inverse (buf : Buffer) (b0 b1 b2 b3 : Byte) (t : List Byte)
    (f : Option Error) :
    -2147483648 ≤ (buf.ReadInt ⟨b0 :: b1 :: b2 :: b3 :: t, f⟩).val
      ∧ (buf.ReadInt ⟨b0 :: b1 :: b2 :: b3 :: t, f⟩).val ≤ 2147483647
      ∧ intWire (buf.ReadInt ⟨b0 :: b1 :: b2 :: b3 :: t, f⟩).val = [b0, b1, b2, b3] := by
  obtain ⟨_, _, h3⟩ := buf.ReadInt_ok [b0, b1, b2, b3] t f rfl
  have hlt := beValue_four_lt b0 b1 b2 b3
  have hv : (buf.ReadInt ⟨b0 :: b1 :: b2 :: b3 :: t, f⟩).val
      = (if (beValue [b0, b1, b2, b3] : Int) ≤ 2147483647 then (beValue [b0, b1, b2, b3] : Int)
         else -((beValue [b0, b1, b2, b3] : Int) - 2147483647)) := h3
  have hp : (2 : Int) ^ 31 = 2147483648 := by norm_num
  have hs : (signOffset (buf.ReadInt ⟨b0 :: b1 :: b2 :: b3 :: t, f⟩).val).toNat
      = beValue [b0, b1, b2, b3] := by
    rw [hv]
    simp only [signOffset, hp]
    split_ifs <;> omega
  refine ⟨?_, ?_, ?_⟩
  · rw [hv]
    split_ifs <;> omega
  · rw [hv]
    split_ifs <;> omega
  · rw [intWire, hs, beBytes_beValue_four]

theorem Buffer.Writer_strict_iff (buf : Buffer) (w : Sink) (flags : List Bool) :
    (buf.Writer w flags).stopOnError = true ↔ ∃ rest : List Bool, flags = true :: rest := by
  cases flags with
  | nil => simp [Buffer.Writer]
  | cons b rest => cases b <;> simp [Buffer.Writer]

/-! ## The properties of the specification -/

/-- C1: bounded-int round trip. For every `v` with `-2^31 ≤ v ≤ 2^31-1`, every
buffer state (of the writing and of the reading side), every stream that never
fails and every trailing bytes `t`: `WriteInt` returns no error and appends
exactly 4 bytes `e`, and `ReadInt` on `e ++ t` returns `v`, no error, and
leaves exactly `t` unread. -/
theorem C1_int_round_trip (v : Int) (hlo : -2 ^ 31 ≤ v) (hhi : v ≤ 2 ^ 31 - 1)
    (bufW bufR : Buffer) (w : Sink) (hw : w.room = none) (t : List Byte) (f : Option Error) :
    (bufW.WriteInt w v).err = none
      ∧ ∃ e : List Byte, e.length = 4
        ∧ (bufW.WriteInt w v).w.data = w.data ++ e
        ∧ (bufR.ReadInt ⟨e ++ t, f⟩).val = v
        ∧ (bufR.ReadInt ⟨e ++ t, f⟩).err = none
        ∧ (bufR.ReadInt ⟨e ++ t, f⟩).r.data = t := by
  have hlo1 : -2147483648 ≤ v := by norm_num at hlo; exact hlo
  have hhi1 : v ≤ 2147483647 := by norm_num at hhi; exact hhi
  obtain ⟨hw1, hw2⟩ := bufW.WriteInt_inRange w v ((inRange_iff v).mpr ⟨hlo1, hhi1⟩)
  obtain ⟨hr1, hr2, hr3⟩ := bufR.ReadInt_intWire v hlo1 hhi1 t f
  rw [Sink.Write_unbounded w _ hw] at hw1 hw2
  refine ⟨hw2, intWire v, intWire_length v, ?_, hr3, hr1, ?_⟩
  · rw [hw1]
  · rw [hr2]

/-- C1 at `v = -2^31`, on the zero-value buffer, with one trailing byte. -/
theorem C1_int_round_trip_witness :
    (Buffer.zero.WriteInt ⟨[], none⟩ (-2147483648)).err = none
      ∧ ∃ e : List Byte, e.length = 4
        ∧ (Buffer.zero.WriteInt ⟨[], none⟩ (-2147483648)).w.data = [] ++ e
        ∧ ((NewBuffer 2).ReadInt ⟨e ++ [7], none⟩).val = -2147483648
        ∧ ((NewBuffer 2).ReadInt ⟨e ++ [7], none⟩).err = none
        ∧ ((NewBuffer 2).ReadInt ⟨e ++ [7], none⟩).r.data = [7] :=
  C1_int_round_trip (-2147483648) (by norm_num) (by norm_num) Buffer.zero (NewBuffer 2)
    ⟨[], none⟩ rfl [7] none

/-- C2: range check of `WriteInt`. On a stream whose writes never fail,
`WriteInt(val)` returns an error exactly when `val > 2^31-1` or `val < -2^31`;
that error is the range error, and then the stream is unchanged (no byte
written). -/
theorem C2_WriteInt_range_check (buf : Buffer) (w : Sink) (hw : w.room = none) (val : Int) :
    ((buf.WriteInt w val).err ≠ none ↔ (val > 2 ^ 31 - 1 ∨ val < -2 ^ 31))
      ∧ ((val > 2 ^ 31 - 1 ∨ val < -2 ^ 31) →
          (buf.WriteInt w val).err = some Error.range ∧ (buf.WriteInt w val).w = w) := by
  have hc : (val > 2 ^ 31 - 1 ∨ val < -2 ^ 31) ↔ (val > MaxInt32 ∨ val < MinInt32) := by
    simp only [MaxInt32, MinInt32]
    norm_num
  rw [hc]
  by_cases h : val > MaxInt32 ∨ val < MinInt32
  · rw [buf.WriteInt_outOfRange w val h]
    simp [h]
  · obtain ⟨_, h2⟩ := buf.WriteInt_inRange w val h
    rw [Sink.Write_unbounded w _ hw] at h2
    simp [h, h2]

/-- C2 at the four boundary values: `2^31` and `-2^31-1` fail with the range
error and write nothing, `2^31-1` and `-2^31` succeed. -/
theorem C2_WriteInt_range_check_witness :
    (Buffer.zero.WriteInt ⟨[], none⟩ 2147483648).err = some Error.range
      ∧ (Buffer.zero.WriteInt ⟨[], none⟩ 2147483648).w = ⟨[], none⟩
      ∧ (Buffer.zero.WriteInt ⟨[], none⟩ (-2147483649)).err = some Error.range
      ∧ (Buffer.zero.WriteInt ⟨[], none⟩ (-2147483649)).w = ⟨[], none⟩
      ∧ ¬ (Buffer.zero.WriteInt ⟨[], none⟩ 2147483647).err ≠ none
      ∧ ¬ (Buffer.zero.WriteInt ⟨[], none⟩ (-2147483648)).err ≠ none :=
  ⟨((C2_WriteInt_range_check Buffer.zero ⟨[], none⟩ rfl 2147483648).2
      (Or.inl (by norm_num))).1,
    ((C2_WriteInt_range_check Buffer.zero ⟨[], none⟩ rfl 2147483648).2
      (Or.inl (by norm_num))).2,
    ((C2_WriteInt_range_check Buffer.zero ⟨[], none⟩ rfl (-2147483649)).2
      (Or.inr (by norm_num))).1,
    ((C2_WriteInt_range_check Buffer.zero ⟨[], none⟩ rfl (-2147483649)).2
      (Or.inr (by norm_num))).2,
    fun h => absurd ((C2_WriteInt_range_check Buffer.zero ⟨[], none⟩ rfl 2147483647).1.mp h)
      (by norm_num),
    fun h => absurd ((C2_WriteInt_range_check Buffer.zero ⟨[], none⟩ rfl (-2147483648)).1.mp h)
      (by norm_num)⟩

/-- C3: bounded-int wire format. For every in-range `v`, with `u = v` when
`v ≥ 0` and `u = (-v) + (2^31 - 1)` when `v < 0` (`signOffset`): `u` fits in 32
bits (the conversion `uint32` does not change it), and `WriteInt` appends to a
stream that never fails the 4-byte big-endian representation of `u`, whose
big-endian value is `u`; for `v = -1` the bytes are `0x80 0x00 0x00 0x00`. -/
theorem C3_int_wire_format (buf : Buffer) (w : Sink) (hw : w.room = none) (v : Int)
    (hlo : -2 ^ 31 ≤ v) (hhi : v ≤ 2 ^ 31 - 1) :
    signOffset v = (if 0 ≤ v then v else (-v) + (2 ^ 31 - 1))
      ∧ 0 ≤ signOffset v ∧ signOffset v < 2 ^ 32
      ∧ (toUint32 (signOffset v) : Int) = signOffset v
      ∧ (buf.WriteInt w v).err = none
      ∧ (buf.WriteInt w v).w.data = w.data ++ beBytes 4 (signOffset v).toNat
      ∧ (beBytes 4 (signOffset v).toNat).length = 4
      ∧ (beValue (beBytes 4 (signOffset v).toNat) : Int) = signOffset v
      ∧ (buf.WriteInt w (-1)).w.data = w.data ++ [0x80, 0x00, 0x00, 0x00] := by
  have hlo1 : -2147483648 ≤ v := by norm_num at hlo; exact hlo
  have hhi1 : v ≤ 2147483647 := by norm_num at hhi; exact hhi
  obtain ⟨hb1, hb2⟩ := signOffset_bounds v hlo1 hhi1
  obtain ⟨hw1, hw2⟩ := buf.WriteInt_inRange w v ((inRange_iff v).mpr ⟨hlo1, hhi1⟩)
  obtain ⟨hm1, _⟩ := buf.WriteInt_inRange w (-1)
    ((inRange_iff (-1)).mpr ⟨by decide, by decide⟩)
  rw [Sink.Write_unbounded w _ hw] at hw1 hw2 hm1
  refine ⟨rfl, hb1, by norm_num; exact hb2, ?_, hw2, ?_, ?_, ?_, ?_⟩
  · simp only [toUint32]
    omega
  · rw [hw1]
    rfl
  · exact intWire_length v
  · rw [beValue_beBytes_four]
    omega
  · rw [hm1]
    simp only [List.append_cancel_left_eq]
    decide

/-- C3 at `v = -2^31`, whose stored number is `2^32 - 1`. -/
theorem C3_int_wire_format_witness :
    signOffset (-2147483648) = (if (0 : Int) ≤ -2147483648 then -2147483648
        else (-(-2147483648)) + (2 ^ 31 - 1))
      ∧ 0 ≤ signOffset (-2147483648) ∧ signOffset (-2147483648) < 2 ^ 32
      ∧ (toUint32 (signOffset (-2147483648)) : Int) = signOffset (-2147483648)
      ∧ ((NewBuffer 9).WriteInt ⟨[5], none⟩ (-2147483648)).err = none
      ∧ ((NewBuffer 9).WriteInt ⟨[5], none⟩ (-2147483648)).w.data
          = [5] ++ beBytes 4 (signOffset (-2147483648)).toNat
      ∧ (beBytes 4 (signOffset (-2147483648)).toNat).length = 4
      ∧ (beValue (beBytes 4 (signOffset (-2147483648)).toNat) : Int)
          = signOffset (-2147483648)
      ∧ ((NewBuffer 9).WriteInt ⟨[5], none⟩ (-1)).w.data = [5] ++ [0x80, 0x00, 0x00, 0x00] :=
  C3_int_wire_format (NewBuffer 9) ⟨[5], none⟩ rfl (-2147483648) (by norm_num) (by norm_num)

/-- C4: bounded-int decoding rule. For every buffer state and every stream that
starts with 4 bytes `b0 b1 b2 b3`, of big-endian unsigned value `s`, `ReadInt`
returns no error, consumes exactly those 4 bytes, and returns `s` when
`s ≤ 2^31-1` and `-(s - (2^31-1))` otherwise. -/
theorem C4_int_decoding_rule (buf : Buffer) (b0 b1 b2 b3 : Byte) (t : List Byte)
    (f : Option Error) :
    beValue [b0, b1, b2, b3] = b0.val * 2 ^ 24 + b1.val * 2 ^ 16 + b2.val * 2 ^ 8 + b3.val
      ∧ (buf.ReadInt ⟨b0 :: b1 :: b2 :: b3 :: t, f⟩).err = none
      ∧ (buf.ReadInt ⟨b0 :: b1 :: b2 :: b3 :: t, f⟩).r = ⟨t, f⟩
      ∧ (buf.ReadInt ⟨b0 :: b1 :: b2 :: b3 :: t, f⟩).val
          = (if (beValue [b0, b1, b2, b3] : Int) ≤ 2 ^ 31 - 1 then (beValue [b0, b1, b2, b3] : Int)
             else -((beValue [b0, b1, b2, b3] : Int) - (2 ^ 31 - 1))) := by
  obtain ⟨h1, h2, h3⟩ := buf.ReadInt_ok [b0, b1, b2, b3] t f rfl
  have h : ((2 : Int) ^ 31 - 1) = 2147483647 := by norm_num
  rw [h]
  exact ⟨beValue_four b0 b1 b2 b3, h1, h2, h3⟩

/-- C5: bool codec. `WriteBool` appends exactly one byte to a stream that never
fails, `0x01` for true and `0x00` for false; `ReadBool` on a stream that starts
with a byte `c` returns no error, consumes that byte, and returns true exactly
when `c = 1` (false for every other byte); `ReadBool` after `WriteBool(v)`
returns `v`. -/
theorem C5_bool_codec (bufW bufR : Buffer) (w : Sink) (hw : w.room = none) (v : Bool)
    (c : Byte) (t : List Byte) (f : Option Error) :
    (bufW.WriteBool w v).err = none
      ∧ (bufW.WriteBool w v).w.data = w.data ++ [if v then 0x01 else 0x00]
      ∧ (bufR.ReadBool ⟨c :: t, f⟩).err = none
      ∧ (bufR.ReadBool ⟨c :: t, f⟩).r = ⟨t, f⟩
      ∧ ((bufR.ReadBool ⟨c :: t, f⟩).val = true ↔ c = 1)
      ∧ (c ≠ 1 → (bufR.ReadBool ⟨c :: t, f⟩).val = false)
      ∧ (bufR.ReadBool ⟨(if v then 0x01 else 0x00) :: t, f⟩).val = v
      ∧ (bufR.ReadBool ⟨(if v then 0x01 else 0x00) :: t, f⟩).err = none := by
  obtain ⟨hw1, hw2⟩ := bufW.WriteBool_out w v
  rw [Sink.Write_unbounded w _ hw] at hw1 hw2
  obtain ⟨h1, h2, h3⟩ := bufR.ReadBool_ok c t f
  obtain ⟨g1, _, g3⟩ := bufR.ReadBool_ok (if v then 0x01 else 0x00) t f
  refine ⟨hw2, ?_, h1, h2, ?_, ?_, ?_, g1⟩
  · rw [hw1]
    rfl
  · rw [h3]
    simp
  · intro hc
    rw [h3]
    simp [hc]
  · rw [g3]
    cases v <;> decide

/-- C5 on the zero-value buffer: true is written as `0x01`, and the byte `0x02`
is read as false. -/
theorem C5_bool_codec_witness :
    (Buffer.zero.WriteBool ⟨[], none⟩ true).err = none
      ∧ (Buffer.zero.WriteBool ⟨[], none⟩ true).w.data = [] ++ [if true then 0x01 else 0x00]
      ∧ (Buffer.zero.ReadBool ⟨2 :: [9], none⟩).err = none
      ∧ (Buffer.zero.ReadBool ⟨2 :: [9], none⟩).r = ⟨[9], none⟩
      ∧ ((Buffer.zero.ReadBool ⟨2 :: [9], none⟩).val = true ↔ (2 : Byte) = 1)
      ∧ ((2 : Byte) ≠ 1 → (Buffer.zero.ReadBool ⟨2 :: [9], none⟩).val = false)
      ∧ (Buffer.zero.ReadBool ⟨(if true then 0x01 else 0x00) :: [9], none⟩).val = true
      ∧ (Buffer.zero.ReadBool ⟨(if true then 0x01 else 0x00) :: [9], none⟩).err = none :=
  C5_bool_codec Buffer.zero Buffer.zero ⟨[], none⟩ rfl true 2 [9] none

/-- C6: sequence-of-bool wire layout and round trip. For every list `bs` of
booleans of length at most `2^31-1`, `WriteBools` appends to a stream that never
fails the 4-byte bounded-int wire form of `len(bs)` followed by one byte per
element in order (`0x01`/`0x00`), that is `4 + len(bs)` bytes, and `ReadBools`
on that output (followed by any `t`) returns `bs` and no error, leaving `t`
unread; for `[false, true]` the bytes are `00 00 00 02 00 01`. -/
theorem C6_bools_wire_round_trip (bufW bufR : Buffer) (w : Sink) (hw : w.room = none)
    (bs : List Bool) (hn : bs.length ≤ 2 ^ 31 - 1) (t : List Byte) (f : Option Error) :
    (bufW.WriteBools w bs).err = none
      ∧ (bufW.WriteBools w bs).w.data
          = w.data ++ (intWire bs.length ++ bs.map (fun b => if b then (0x01 : Byte) else 0x00))
      ∧ (intWire bs.length ++ bs.map (fun b => if b then (0x01 : Byte) else 0x00)).length
          = 4 + bs.length
      ∧ (∃ buf1 : Buffer,
          bufR.ReadBools
              ⟨(intWire bs.length ++ bs.map (fun b => if b then (0x01 : Byte) else 0x00)) ++ t, f⟩
            = Run.returned { buf := buf1, r := ⟨t, f⟩, val := Slice.data bs, err := none })
      ∧ (bufW.WriteBools w [false, true]).w.data = w.data ++ [0x00, 0x00, 0x00, 0x02, 0x00, 0x01] := by
  have hn1 : bs.length ≤ 2147483647 := by norm_num at hn; exact hn
  obtain ⟨h1, h2⟩ := seqWrite_unbounded Buffer.WriteBool boolWire (fun _ => True)
    Buffer.WriteBool_unbounded bs (fun _ _ => trivial) hn1 bufW w hw
  obtain ⟨k1, _⟩ := seqWrite_unbounded Buffer.WriteBool boolWire (fun _ => True)
    Buffer.WriteBool_unbounded [false, true] (fun _ _ => trivial) (by decide) bufW w hw
  obtain ⟨buf1, g⟩ := readSeq_ok false Buffer.ReadBool boolWire (fun _ => True)
    (fun buf v t f hp => buf.ReadBool_boolWire v t f hp) bs (fun _ _ => trivial) hn1 bufR t f
  simp only [seqWire, seqBody_boolWire] at h1 g
  refine ⟨h2, ?_, ?_, ⟨buf1, g⟩, ?_⟩
  · simp only [Buffer.WriteBools]
    rw [h1]
  · simp [intWire_length]
  · simp only [Buffer.WriteBools]
    rw [k1]
    simp only [List.append_cancel_left_eq]
    decide

/-- C6 on the zero-value buffer and the list `[true, false, true]`. -/
theorem C6_bools_wire_round_trip_witness :
    (Buffer.zero.WriteBools ⟨[], none⟩ [true, false, true]).err = none
      ∧ (Buffer.zero.WriteBools ⟨[], none⟩ [true, false, true]).w.data
          = [] ++ (intWire [true, false, true].length
              ++ [true, false, true].map (fun b => if b then (0x01 : Byte) else 0x00))
      ∧ (intWire [true, false, true].length
            ++ [true, false, true].map (fun b => if b then (0x01 : Byte) else 0x00)).length
          = 4 + [true, false, true].length
      ∧ (∃ buf1 : Buffer,
          Buffer.zero.ReadBools
              ⟨(intWire [true, false, true].length
                ++ [true, false, true].map (fun b => if b then (0x01 : Byte) else 0x00)) ++ [9], none⟩
            = Run.returned { buf := buf1, r := ⟨[9], none⟩,
                             val := Slice.data [true, false, true], err := none })
      ∧ (Buffer.zero.WriteBools ⟨[], none⟩ [false, true]).w.data
          = [] ++ [0x00, 0x00, 0x00, 0x02, 0x00, 0x01] :=
  C6_bools_wire_round_trip Buffer.zero Buffer.zero ⟨[], none⟩ rfl [true, false, true]
    (by decide) [9] none

/-- C7: sequence-of-int round trip. For every list `vs` of integers within
`[-2^31, 2^31-1]`, of length at most `2^31-1`, and every trailing bytes `t`:
`WriteInts` on a stream that never fails returns no error and appends the count
and the elements' wire forms, and `ReadInts` on that output followed by `t`
returns no error and a non-nil slice with the elements of `vs` in order,
leaving `t` unread. For the empty list the result is the empty non-nil slice. -/
theorem C7_ints_round_trip (bufW bufR : Buffer) (w : Sink) (hw : w.room = none)
    (vs : List Int) (hv : ∀ v ∈ vs, -2 ^ 31 ≤ v ∧ v ≤ 2 ^ 31 - 1)
    (hn : vs.length ≤ 2 ^ 31 - 1) (t : List Byte) (f : Option Error) :
    (bufW.WriteInts w vs).err = none
      ∧ (bufW.WriteInts w vs).w.data = w.data ++ seqWire intWire vs
      ∧ (∃ buf1 : Buffer,
          bufR.ReadInts ⟨seqWire intWire vs ++ t, f⟩
            = Run.returned { buf := buf1, r := ⟨t, f⟩, val := Slice.data vs, err := none })
      ∧ (Slice.data vs ≠ Slice.nil)
      ∧ (∃ buf1 : Buffer,
          bufR.ReadInts ⟨seqWire intWire [] ++ t, f⟩
            = Run.returned { buf := buf1, r := ⟨t, f⟩, val := Slice.data [], err := none }) := by
  have hn1 : vs.length ≤ 2147483647 := by norm_num at hn; exact hn
  have hv1 : ∀ v ∈ vs, -2147483648 ≤ v ∧ v ≤ 2147483647 := by
    intro v hm
    have h := hv v hm
    norm_num at h
    exact h
  obtain ⟨h1, h2⟩ := seqWrite_unbounded Buffer.WriteInt intWire
    (fun v => -2147483648 ≤ v ∧ v ≤ 2147483647) Buffer.WriteInt_unbounded vs hv1 hn1 bufW w hw
  refine ⟨h2, ?_, ?_, ?_, ?_⟩
  · simp only [Buffer.WriteInts]
    rw [h1]
  · exact readSeq_ok 0 Buffer.ReadInt intWire (fun v => -2147483648 ≤ v ∧ v ≤ 2147483647)
      (fun buf v t f hp => buf.ReadInt_intWire v hp.1 hp.2 t f) vs hv1 hn1 bufR t f
  · intro hc
    cases hc
  · exact readSeq_ok 0 Buffer.ReadInt intWire (fun v => -2147483648 ≤ v ∧ v ≤ 2147483647)
      (fun buf v t f hp => buf.ReadInt_intWire v hp.1 hp.2 t f) [] (by simp) (by simp) bufR t f

/-- C7 on the list `[0, -1, 2^31-1, -2^31]`. -/
theorem C7_ints_round_trip_witness :
    (Buffer.zero.WriteInts ⟨[], none⟩ [0, -1, 2147483647, -2147483648]).err = none
      ∧ (Buffer.zero.WriteInts ⟨[], none⟩ [0, -1, 2147483647, -2147483648]).w.data
          = [] ++ seqWire intWire [0, -1, 2147483647, -2147483648]
      ∧ (∃ buf1 : Buffer,
          Buffer.zero.ReadInts ⟨seqWire intWire [0, -1, 2147483647, -2147483648] ++ [9], none⟩
            = Run.returned { buf := buf1, r := ⟨[9], none⟩,
                             val := Slice.data [0, -1, 2147483647, -2147483648], err := none })
      ∧ (Slice.data [0, -1, 2147483647, -2147483648] ≠ (Slice.nil : Slice Int))
      ∧ (∃ buf1 : Buffer,
          Buffer.zero.ReadInts ⟨seqWire intWire [] ++ [9], none⟩
            = Run.returned { buf := buf1, r := ⟨[9], none⟩, val := Slice.data [], err := none }) :=
  C7_ints_round_trip Buffer.zero Buffer.zero ⟨[], none⟩ rfl [0, -1, 2147483647, -2147483648]
    (by
      intro v hm
      simp only [List.mem_cons, List.mem_singleton, List.not_mem_nil, or_false] at hm
      rcases hm with h | h | h | h <;> subst h <;> norm_num)
    (by decide) [9] none

/-- C8: int64 round trip. For every 64-bit signed integer `v`
(`-2^63 ≤ v ≤ 2^63-1`), every buffer state and every tail `t`: `WriteInt64`
never returns the range error, on a stream that never fails it returns no error
and appends exactly the 8 big-endian bytes of the two's-complement pattern of
`v` (`v` for `v ≥ 0`, `v + 2^64` for `v < 0`), and `ReadInt64` on those bytes
returns `v`, no error, and leaves `t` unread. -/
theorem C8_int64_round_trip (bufW bufR : Buffer) (w : Sink) (hw : w.room = none) (v : Int)
    (hlo : -2 ^ 63 ≤ v) (hhi : v ≤ 2 ^ 63 - 1) (t : List Byte) (f : Option Error) :
    twosComplement64 v = (if 0 ≤ v then v else v + 2 ^ 64)
      ∧ (∀ w1 : Sink, (bufW.WriteInt64 w1 v).err ≠ some Error.range)
      ∧ (bufW.WriteInt64 w v).err = none
      ∧ (bufW.WriteInt64 w v).w.data = w.data ++ beBytes 8 (twosComplement64 v).toNat
      ∧ (beBytes 8 (twosComplement64 v).toNat).length = 8
      ∧ (beValue (beBytes 8 (twosComplement64 v).toNat) : Int) = twosComplement64 v
      ∧ (bufR.ReadInt64 ⟨beBytes 8 (twosComplement64 v).toNat ++ t, f⟩).val = v
      ∧ (bufR.ReadInt64 ⟨beBytes 8 (twosComplement64 v).toNat ++ t, f⟩).err = none
      ∧ (bufR.ReadInt64 ⟨beBytes 8 (twosComplement64 v).toNat ++ t, f⟩).r.data = t := by
  have hlo1 : -9223372036854775808 ≤ v := by norm_num at hlo; exact hlo
  have hhi1 : v ≤ 9223372036854775807 := by norm_num at hhi; exact hhi
  obtain ⟨hw1, hw2⟩ := bufW.WriteInt64_out w v
  rw [Sink.Write_unbounded w _ hw, toUint64_twosComplement v hlo1 hhi1] at hw1 hw2
  obtain ⟨hr1, hr2, hr3⟩ := bufR.ReadInt64_int64Wire v hlo1 hhi1 t f
  obtain ⟨b1, b2⟩ := twosComplement64_bounds v hlo1 hhi1
  refine ⟨rfl, ?_, hw2, ?_, int64Wire_length v, ?_, hr3, hr1, ?_⟩
  · intro w1
    rw [(bufW.WriteInt64_out w1 v).2]
    exact Sink.Write_err_ne_range w1 _
  · rw [hw1]
  · rw [beValue_beBytes_eight, Nat.mod_eq_of_lt ((Int.toNat_lt b1).mpr b2),
      Int.toNat_of_nonneg b1]
  · exact congrArg Source.data hr2

/-- C8 at `v = -2^63`, on the zero-value buffer. -/
theorem C8_int64_round_trip_witness :
    twosComplement64 (-9223372036854775808)
        = (if (0 : Int) ≤ -9223372036854775808 then -9223372036854775808
           else -9223372036854775808 + 2 ^ 64)
      ∧ (∀ w1 : Sink, (Buffer.zero.WriteInt64 w1 (-9223372036854775808)).err ≠ some Error.range)
      ∧ (Buffer.zero.WriteInt64 ⟨[], none⟩ (-9223372036854775808)).err = none
      ∧ (Buffer.zero.WriteInt64 ⟨[], none⟩ (-9223372036854775808)).w.data
          = [] ++ beBytes 8 (twosComplement64 (-9223372036854775808)).toNat
      ∧ (beBytes 8 (twosComplement64 (-9223372036854775808)).toNat).length = 8
      ∧ (beValue (beBytes 8 (twosComplement64 (-9223372036854775808)).toNat) : Int)
          = twosComplement64 (-9223372036854775808)
      ∧ (Buffer.zero.ReadInt64
          ⟨beBytes 8 (twosComplement64 (-9223372036854775808)).toNat ++ [9], none⟩).val
          = -9223372036854775808
      ∧ (Buffer.zero.ReadInt64
          ⟨beBytes 8 (twosComplement64 (-9223372036854775808)).toNat ++ [9], none⟩).err = none
      ∧ (Buffer.zero.ReadInt64
          ⟨beBytes 8 (twosComplement64 (-9223372036854775808)).toNat ++ [9], none⟩).r.data = [9] :=
  C8_int64_round_trip Buffer.zero Buffer.zero ⟨[], none⟩ rfl (-9223372036854775808)
    (by norm_num) (by norm_num) [9] none

/-- C9: string byte-fidelity round trip. For every string `s` of byte length
`N ≤ 2^31-1`, every buffer state and every tail `t`: `WriteString` on a stream
that never fails returns no error and appends the bounded-int wire form of the
byte count `N` followed by the `N` bytes of `s`, `4 + N` bytes in all, and
`ReadString` on that output followed by `t` returns the same bytes, no error,
and leaves `t` unread. -/
theorem C9_string_round_trip (bufW bufR : Buffer) (w : Sink) (hw : w.room = none)
    (s : List Byte) (hn : s.length ≤ 2 ^ 31 - 1) (t : List Byte) (f : Option Error) :
    (bufW.WriteString w s).err = none
      ∧ (bufW.WriteString w s).w.data = w.data ++ (intWire s.length ++ s)
      ∧ (intWire s.length ++ s).length = 4 + s.length
      ∧ (bufR.ReadString ⟨(intWire s.length ++ s) ++ t, f⟩).val = s
      ∧ (bufR.ReadString ⟨(intWire s.length ++ s) ++ t, f⟩).err = none
      ∧ (bufR.ReadString ⟨(intWire s.length ++ s) ++ t, f⟩).r.data = t := by
  have hn1 : s.length ≤ 2147483647 := by norm_num at hn; exact hn
  obtain ⟨h1, h2⟩ := bufW.WriteString_unbounded w s hn1 hw
  obtain ⟨g1, g2, g3⟩ := bufR.ReadString_stringWire s t f hn1
  refine ⟨h2, ?_, ?_, g3, g1, congrArg Source.data g2⟩
  · rw [h1]
    rfl
  · simp [intWire_length]

/-- C9 on a string of four 3-byte characters: the prefix counts its 12 bytes,
not its 4 characters. -/
theorem C9_string_round_trip_witness :
    ("ㄒ乇丂ㄒ".length = 4 ∧ (goString "ㄒ乇丂ㄒ").length = 12
        ∧ intWire (goString "ㄒ乇丂ㄒ").length = [0x00, 0x00, 0x00, 0x0c])
      ∧ (Buffer.zero.WriteString ⟨[], none⟩ (goString "ㄒ乇丂ㄒ")).err = none
      ∧ (Buffer.zero.WriteString ⟨[], none⟩ (goString "ㄒ乇丂ㄒ")).w.data
          = [] ++ (intWire (goString "ㄒ乇丂ㄒ").length ++ goString "ㄒ乇丂ㄒ")
      ∧ (intWire (goString "ㄒ乇丂ㄒ").length ++ goString "ㄒ乇丂ㄒ").length
          = 4 + (goString "ㄒ乇丂ㄒ").length
      ∧ ((NewBuffer 3).ReadString
          ⟨(intWire (goString "ㄒ乇丂ㄒ").length ++ goString "ㄒ乇丂ㄒ") ++ [9], none⟩).val
          = goString "ㄒ乇丂ㄒ"
      ∧ ((NewBuffer 3).ReadString
          ⟨(intWire (goString "ㄒ乇丂ㄒ").length ++ goString "ㄒ乇丂ㄒ") ++ [9], none⟩).err = none
      ∧ ((NewBuffer 3).ReadString
          ⟨(intWire (goString "ㄒ乇丂ㄒ").length ++ goString "ㄒ乇丂ㄒ") ++ [9], none⟩).r.data
          = [9] :=
  ⟨⟨by decide, by decide, by decide⟩,
    C9_string_round_trip Buffer.zero (NewBuffer 3) ⟨[], none⟩ rfl (goString "ㄒ乇丂ㄒ")
      (by decide) [9] none⟩

/-- C10: buffer reuse does not affect the output. For every write call
(`WriteBool`, `WriteByteValue`, `WriteInt`, `WriteInt64`, `WriteString` and
their sequence forms) with every argument, on every stream, the stream
afterwards and the returned error are the same for any two prior states of the
buffer; hence any sequence of calls on one shared buffer leaves the same bytes
in the stream (and returns the same errors) as the same calls made each on a
buffer of its own, and in particular on zero-value buffers. -/
theorem C10_buffer_reuse :
    (∀ (op : WriteOp) (buf1 buf2 : Buffer) (w : Sink),
        (op.run buf1 w).w = (op.run buf2 w).w ∧ (op.run buf1 w).err = (op.run buf2 w).err)
      ∧ (∀ (ops : List (WriteOp × Buffer)) (buf : Buffer) (w : Sink),
        runShared (ops.map Prod.fst) buf w = runFresh ops w)
      ∧ (∀ (ops : List WriteOp) (buf : Buffer) (w : Sink),
        (runShared ops buf w).1.data
          = (runFresh (ops.map (fun op => (op, Buffer.zero))) w).1.data) := by
  refine ⟨WriteOp.run_free, runShared_eq_runFresh, ?_⟩
  intro ops buf w
  rw [← runShared_eq_runFresh (ops.map (fun op => (op, Buffer.zero))) buf w]
  simp [List.map_map, Function.comp_def]

/-- C11: postcondition of `borrow`. For every buffer whose region has length
`c` and every `n ≥ 0`, `borrow(n)` returns a view of exactly length `n`, the
first `n` bytes of the region afterwards, and the region then has length
`max(c, n)`: it is a new region of exactly `n` bytes when `n > c`, the buffer is
unchanged when `n ≤ c`, and the region is never shorter than before. For every
`n < 0` it returns the whole region, of length `c`, and leaves the buffer
unchanged. -/
theorem C11_borrow_postcondition (buf : Buffer) (n : Int) :
    (0 ≤ n →
        (buf.borrow n).2.len = n.toNat
          ∧ (buf.borrow n).2 = (buf.borrow n).1.b.upTo n.toNat
          ∧ (buf.borrow n).1.b.len = max buf.b.len n.toNat
          ∧ ((buf.b.len : Int) < n → (buf.borrow n).1.b = make 0 n.toNat)
          ∧ (n ≤ (buf.b.len : Int) → (buf.borrow n).1 = buf)
          ∧ buf.b.len ≤ (buf.borrow n).1.b.len
          ∧ (buf.borrow n).1.maxSize = buf.maxSize)
      ∧ (n < 0 →
        (buf.borrow n).2 = buf.b ∧ (buf.borrow n).2.len = buf.b.len ∧ (buf.borrow n).1 = buf) := by
  constructor
  · intro h0
    refine ⟨buf.borrow_len n h0, ?_⟩
    by_cases h : (buf.b.len : Int) < n
    · rw [buf.borrow_grow n h0 h]
      refine ⟨by simp [make, Slice.upTo], ?_, fun _ => rfl, fun h1 => absurd h1 (not_le.mpr h),
        ?_, rfl⟩
      · show (make (0 : Byte) n.toNat).len = max buf.b.len n.toNat
        rw [make_len]
        omega
      · show buf.b.len ≤ (make (0 : Byte) n.toNat).len
        rw [make_len]
        omega
    · rw [buf.borrow_keep n h0 (not_lt.mp h)]
      refine ⟨rfl, ?_, fun h1 => absurd h1 h, fun _ => rfl, le_refl _, rfl⟩
      simp only
      omega
  · intro h
    rw [buf.borrow_neg n h]
    exact ⟨rfl, rfl, rfl⟩

/-- C11 on a region of 2 bytes: `borrow(5)` grows it to 5, `borrow(1)` and
`borrow(-1)` leave it. -/
theorem C11_borrow_postcondition_witness :
    (((NewBuffer 2).borrow 5).2.len = (5 : Int).toNat
        ∧ ((NewBuffer 2).borrow 5).1.b.len = max (NewBuffer 2).b.len (5 : Int).toNat
        ∧ ((NewBuffer 2).borrow 5).1.b = make 0 (5 : Int).toNat)
      ∧ ((NewBuffer 2).borrow 1).1 = NewBuffer 2
      ∧ (((NewBuffer 2).borrow (-1)).2 = (NewBuffer 2).b
        ∧ ((NewBuffer 2).borrow (-1)).2.len = (NewBuffer 2).b.len
        ∧ ((NewBuffer 2).borrow (-1)).1 = NewBuffer 2) :=
  ⟨⟨((C11_borrow_postcondition (NewBuffer 2) 5).1 (by decide)).1,
      ((C11_borrow_postcondition (NewBuffer 2) 5).1 (by decide)).2.2.1,
      ((C11_borrow_postcondition (NewBuffer 2) 5).1 (by decide)).2.2.2.1 (by decide)⟩,
    ((C11_borrow_postcondition (NewBuffer 2) 1).1 (by decide)).2.2.2.2.1 (by decide),
    (C11_borrow_postcondition (NewBuffer 2) (-1)).2 (by decide)⟩

/-- C12: `borrow` does not respect the maximum size. On `NewBuffer(2)`, whose
maximum size is 2, `borrow(5)` grows the internal region to 5 bytes, more than
the maximum size, and the view it returns is that internal region, not a
temporary slice. -/
theorem C12_borrow_ignores_maxSize :
    (NewBuffer 2).maxSize = 2
      ∧ ((NewBuffer 2).borrow 5).1.maxSize = 2
      ∧ ((NewBuffer 2).borrow 5).1.b.len = 5
      ∧ ¬ (((NewBuffer 2).borrow 5).1.b.len : Int) ≤ ((NewBuffer 2).borrow 5).1.maxSize
      ∧ ((NewBuffer 2).borrow 5).2 = ((NewBuffer 2).borrow 5).1.b := by
  decide

/-- C13: `Read` reads exactly. For every `n ≥ 0`, every buffer state and every
stream, `Read(r, n)` returns no error exactly when the stream holds at least `n`
bytes; then the view has length `n`, holds the first `n` bytes of the stream, and
exactly `n` bytes are consumed; otherwise it returns the nil view together with
the error (the stream's own error, else `io.EOF` when the stream was empty and
`io.ErrUnexpectedEOF` when it was not). -/
theorem C13_read_exact (buf : Buffer) (r : Source) (n : Nat) :
    ((buf.Read r n).err = none ↔ n ≤ r.data.length)
      ∧ (n ≤ r.data.length →
          (buf.Read r n).val.toList = r.data.take n
            ∧ (buf.Read r n).val.len = n
            ∧ (buf.Read r n).r = { data := r.data.drop n, fault := r.fault })
      ∧ (r.data.length < n →
          (buf.Read r n).val = Slice.nil
            ∧ (buf.Read r n).err = some (match r.fault with
                | some e => e
                | none => if r.data.length = 0 then Error.eof else Error.unexpectedEOF)) := by
  by_cases h : n ≤ r.data.length
  · obtain ⟨h1, h2, h3⟩ := buf.Read_ok r n h
    refine ⟨⟨fun _ => h, fun _ => h1⟩, fun _ => ⟨h3, ?_, h2⟩, fun h4 => absurd h (not_le.mpr h4)⟩
    simp only [Slice.len, h3, List.length_take]
    omega
  · obtain ⟨h1, h2, _⟩ := buf.Read_short r n (not_le.mp h)
    refine ⟨⟨fun h4 => ?_, fun h4 => absurd h4 h⟩, fun h4 => absurd h4 h, fun _ => ⟨h1, h2⟩⟩
    rw [h2] at h4
    cases h4

/-- C13 on a stream of three bytes: reading 2 succeeds, reading 4 fails with
`io.ErrUnexpectedEOF` and the nil view. -/
theorem C13_read_exact_witness :
    (((NewBuffer 1).Read ⟨[5, 6, 7], none⟩ (2 : Nat)).val.toList = [5, 6, 7].take 2
        ∧ ((NewBuffer 1).Read ⟨[5, 6, 7], none⟩ (2 : Nat)).val.len = 2
        ∧ ((NewBuffer 1).Read ⟨[5, 6, 7], none⟩ (2 : Nat)).r
            = { data := [5, 6, 7].drop 2, fault := none })
      ∧ (((NewBuffer 1).Read ⟨[5, 6, 7], none⟩ (4 : Nat)).val = Slice.nil
        ∧ ((NewBuffer 1).Read ⟨[5, 6, 7], none⟩ (4 : Nat)).err = some Error.unexpectedEOF) :=
  ⟨(C13_read_exact (NewBuffer 1) ⟨[5, 6, 7], none⟩ 2).2.1 (by decide),
    (C13_read_exact (NewBuffer 1) ⟨[5, 6, 7], none⟩ 4).2.2 (by decide)⟩

/-- C14: strict-mode latching. For a wrapper with `stopOnError = true`, once a
write call has returned a non-nil error `e`, any sequence of later calls (of any
method and argument) leaves the wrapper as it was, so no byte reaches the
stream and the buffer is untouched, every one of these calls returns `e`, and
`Err()` stays `e`: the failed state is terminal. -/
theorem C14_strict_latching (wr : Writer) (hs : wr.stopOnError = true) (c0 : WriterCall)
    (e : Error) (h0 : (wr.call c0).2 = some e) (cs : List WriterCall) :
    (wr.call c0).1.Err = some e
      ∧ ((wr.call c0).1.calls cs).1 = (wr.call c0).1
      ∧ ((wr.call c0).1.calls cs).1.w.data = (wr.call c0).1.w.data
      ∧ ((wr.call c0).1.calls cs).2.length = cs.length
      ∧ (∀ r ∈ ((wr.call c0).1.calls cs).2, r = some e)
      ∧ ((wr.call c0).1.calls cs).1.Err = some e
      ∧ ((wr.call c0).1.calls cs).1.stopOnError = true := by
  have hm : (wr.call c0).1.stopOnError = true := by
    rw [Writer.call_eq_do, Writer.do_mode, hs]
  have hr : (wr.call c0).1.err = some e := by
    rw [Writer.call_eq_do, Writer.do_err, ← Writer.call_eq_do, h0]
  rw [(wr.call c0).1.calls_latched e hr hm cs]
  refine ⟨hr, rfl, rfl, by simp, ?_, hr, hm⟩
  intro r hmem
  exact List.eq_of_mem_replicate hmem

/-- C14 on a strict wrapper: `WriteInt(2^31)` fails with the range error, and
the calls `WriteInt(0)`, `WriteBool(true)` after it write nothing and return the
same error. -/
theorem C14_strict_latching_witness :
    (((Buffer.zero.Writer ⟨[], none⟩ [true]).call (WriterCall.WriteInt 2147483648)).1.calls
          [WriterCall.WriteInt 0, WriterCall.WriteBool true]).1.w.data
        = ((Buffer.zero.Writer ⟨[], none⟩ [true]).call (WriterCall.WriteInt 2147483648)).1.w.data
      ∧ (∀ r ∈ (((Buffer.zero.Writer ⟨[], none⟩ [true]).call
            (WriterCall.WriteInt 2147483648)).1.calls
          [WriterCall.WriteInt 0, WriterCall.WriteBool true]).2, r = some Error.range)
      ∧ (((Buffer.zero.Writer ⟨[], none⟩ [true]).call (WriterCall.WriteInt 2147483648)).1.calls
          [WriterCall.WriteInt 0, WriterCall.WriteBool true]).1.Err = some Error.range :=
  ⟨(C14_strict_latching (Buffer.zero.Writer ⟨[], none⟩ [true]) rfl
      (WriterCall.WriteInt 2147483648) Error.range (by decide)
      [WriterCall.WriteInt 0, WriterCall.WriteBool true]).2.2.1,
    (C14_strict_latching (Buffer.zero.Writer ⟨[], none⟩ [true]) rfl
      (WriterCall.WriteInt 2147483648) Error.range (by decide)
      [WriterCall.WriteInt 0, WriterCall.WriteBool true]).2.2.2.2.1,
    (C14_strict_latching (Buffer.zero.Writer ⟨[], none⟩ [true]) rfl
      (WriterCall.WriteInt 2147483648) Error.range (by decide)
      [WriterCall.WriteInt 0, WriterCall.WriteBool true]).2.2.2.2.2.1⟩

/-- C15, as stated, fails in best-effort mode: on a wrapper created with no
flag, `WriteInt(2^31)` fails with the range error and `WriteInt(0)` then
succeeds; the most recent failed call produced the range error, yet `Err()`
returns nil. -/
theorem C15_best_effort_overwrites :
    (Buffer.zero.Writer ⟨[], none⟩ []).stopOnError = false
      ∧ ((Buffer.zero.Writer ⟨[], none⟩ []).calls
          [WriterCall.WriteInt 2147483648, WriterCall.WriteInt 0]).2 = [some Error.range, none]
      ∧ lastFailure ((Buffer.zero.Writer ⟨[], none⟩ []).calls
          [WriterCall.WriteInt 2147483648, WriterCall.WriteInt 0]).2 = some Error.range
      ∧ ((Buffer.zero.Writer ⟨[], none⟩ []).calls
          [WriterCall.WriteInt 2147483648, WriterCall.WriteInt 0]).1.Err = none := by
  decide

/-- C15, amended: in both modes `Err()` after a sequence of calls is what the
last call of the sequence returned. In strict mode (from a wrapper with no
stored error) that is the error of the most recent failed call, nil when none
failed. In best-effort mode the last call is always performed and its result,
nil when it succeeds, replaces the stored error. -/
theorem C15_err_is_last_result (wr : Writer) (cs : List WriterCall) (c : WriterCall) :
    (wr.calls (cs ++ [c])).1.Err = ((wr.calls cs).1.call c).2
      ∧ (wr.stopOnError = true → wr.err = none →
          (wr.calls cs).1.Err = lastFailure (wr.calls cs).2)
      ∧ (wr.stopOnError = false →
          (wr.calls (cs ++ [c])).1.Err = (c.fn (wr.calls cs).1.buf (wr.calls cs).1.w).err) := by
  refine ⟨?_, fun hs he => wr.calls_strict hs he cs, fun hs => ?_⟩
  · rw [Writer.calls_append]
    simp only [Writer.Err]
    rw [Writer.call_eq_do, Writer.do_err]
  · have hm : (wr.calls cs).1.stopOnError = false := by
      clear c
      induction cs generalizing wr with
      | nil => exact hs
      | cons d cs ih =>
        simp only [Writer.calls]
        exact ih (wr.call d).1 (by rw [Writer.call_eq_do, Writer.do_mode, hs])
    rw [Writer.calls_append]
    simp only [Writer.Err]
    rw [Writer.call_eq_do, Writer.do_attempt _ _ (Or.inr hm)]

/-- C15 amended, on a strict and on a best-effort wrapper, with the calls
`WriteInt(2^31)`, `WriteInt(0)`. -/
theorem C15_err_is_last_result_witness :
    ((Buffer.zero.Writer ⟨[], none⟩ [true]).calls
          [WriterCall.WriteInt 2147483648, WriterCall.WriteInt 0]).1.Err
        = lastFailure ((Buffer.zero.Writer ⟨[], none⟩ [true]).calls
          [WriterCall.WriteInt 2147483648, WriterCall.WriteInt 0]).2
      ∧ ((Buffer.zero.Writer ⟨[], none⟩ []).calls
          ([WriterCall.WriteInt 2147483648] ++ [WriterCall.WriteInt 0])).1.Err
        = ((WriterCall.WriteInt 0).fn
            ((Buffer.zero.Writer ⟨[], none⟩ []).calls [WriterCall.WriteInt 2147483648]).1.buf
            ((Buffer.zero.Writer ⟨[], none⟩ []).calls [WriterCall.WriteInt 2147483648]).1.w).err :=
  ⟨(C15_err_is_last_result (Buffer.zero.Writer ⟨[], none⟩ [true])
      [WriterCall.WriteInt 2147483648, WriterCall.WriteInt 0] (WriterCall.WriteInt 0)).2.1 rfl rfl,
    (C15_err_is_last_result (Buffer.zero.Writer ⟨[], none⟩ [])
      [WriterCall.WriteInt 2147483648] (WriterCall.WriteInt 0)).2.2 rfl⟩

/-- C16, as stated, fails for a long serialization: for a generic value whose
`Serialize` returns `2^31` bytes and no error, `WriteSerializable` on a stream
that never fails writes nothing, not the `4 + 2^31` bytes, and returns the
range error of `WriteInt`. -/
theorem C16_long_serialization_rejected :
    (List.replicate 2147483648 (0 : Byte)).length = 2147483648
      ∧ (Buffer.zero.WriteSerializable ⟨[], none⟩
          { Serialize := (Slice.data (List.replicate 2147483648 0), none),
            Deserialize := fun _ => none, asBufRW := none }).err = some Error.range
      ∧ (Buffer.zero.WriteSerializable ⟨[], none⟩
          { Serialize := (Slice.data (List.replicate 2147483648 0), none),
            Deserialize := fun _ => none, asBufRW := none }).w.data = [] := by
  have h := Buffer.zero.WriteByteValues_tooLong ⟨[], none⟩ (List.replicate 2147483648 (0 : Byte))
    (by rw [List.length_replicate]; omega)
  have hg := Buffer.zero.WriteSerializable_generic ⟨[], none⟩
    { Serialize := (Slice.data (List.replicate 2147483648 0), none),
      Deserialize := fun _ => none, asBufRW := none } rfl rfl
  simp only [Slice.toList] at hg
  rw [hg, h]
  exact ⟨List.length_replicate _ _, rfl, rfl⟩

/-- C16, amended: extensible write dispatch. A buffer-aware value (one for which
the assertion to `SerializableToBufRW` succeeds, whatever its `Serialize` does)
is handed to its `SerializeToBufRW` and the result is returned as it is.
Otherwise, if `Serialize` returns an error, that error is returned and neither
the stream nor the buffer changes; else the result is that of
`WriteByteValues` on the serialized bytes: for a byte count `N ≤ 2^31-1`, on a
stream that never fails, exactly the bounded-int wire form of `N` followed by
the bytes (`4 + N` bytes) is written and no error returned, and for
`N > 2^31-1` the range error is returned and nothing is written. -/
theorem C16_write_dispatch (buf : Buffer) (w : Sink) (val : Serializable) :
    (∀ s : SerializableToBufRW, val.asBufRW = some s →
        buf.WriteSerializable w val = s.SerializeToBufRW w buf)
      ∧ (∀ e : Error, val.asBufRW = none → val.Serialize.2 = some e →
        buf.WriteSerializable w val = { buf := buf, w := w, err := some e })
      ∧ (val.asBufRW = none → val.Serialize.2 = none →
        buf.WriteSerializable w val = buf.WriteByteValues w val.Serialize.1.toList)
      ∧ (val.asBufRW = none → val.Serialize.2 = none → w.room = none →
        val.Serialize.1.len ≤ 2 ^ 31 - 1 →
          (buf.WriteSerializable w val).err = none
            ∧ (buf.WriteSerializable w val).w.data
                = w.data ++ (intWire val.Serialize.1.len ++ val.Serialize.1.toList)
            ∧ (intWire val.Serialize.1.len ++ val.Serialize.1.toList).length
                = 4 + val.Serialize.1.len)
      ∧ (val.asBufRW = none → val.Serialize.2 = none → 2 ^ 31 - 1 < val.Serialize.1.len →
        buf.WriteSerializable w val = { buf := buf, w := w, err := some Error.range }) := by
  have hgen := buf.WriteSerializable_generic w val
  refine ⟨?_, ?_, hgen, ?_, ?_⟩
  · intro s hs
    simp only [Buffer.WriteSerializable, hs, Buffer.WriteSerializableBufRW]
  · intro e hg hs
    rcases hp : val.Serialize with ⟨b, err⟩
    rw [hp] at hs
    simp only at hs
    subst hs
    simp only [Buffer.WriteSerializable, hg, hp]
  · intro hg hs hw hn
    have hn1 : val.Serialize.1.toList.length ≤ 2147483647 := by
      norm_num at hn
      exact hn
    obtain ⟨h1, h2⟩ := buf.WriteByteValues_unbounded w val.Serialize.1.toList hn1 hw
    rw [hgen hg hs]
    refine ⟨h2, ?_, ?_⟩
    · rw [h1]
      rfl
    · simp [intWire_length, Slice.len]
  · intro hg hs hn
    have hn1 : 2147483647 < val.Serialize.1.toList.length := by
      norm_num at hn
      exact hn
    rw [hgen hg hs]
    exact buf.WriteByteValues_tooLong w _ hn1

/-- C16 amended, on a generic value serialized as `05 06`, on a generic value
whose `Serialize` fails, and on a value that is also buffer-aware. -/
theorem C16_write_dispatch_witness :
    ((Buffer.zero.WriteSerializable ⟨[9], none⟩
          { Serialize := (Slice.data [5, 6], none), Deserialize := fun _ => none,
            asBufRW := none }).err = none
        ∧ (Buffer.zero.WriteSerializable ⟨[9], none⟩
          { Serialize := (Slice.data [5, 6], none), Deserialize := fun _ => none,
            asBufRW := none }).w.data
            = [9] ++ (intWire (Slice.data [5, 6] : Slice Byte).len ++ [5, 6])
        ∧ (intWire (Slice.data [5, 6] : Slice Byte).len ++ [5, 6]).length
            = 4 + (Slice.data [5, 6] : Slice Byte).len)
      ∧ Buffer.zero.WriteSerializable ⟨[9], none⟩
          { Serialize := (Slice.nil, some (Error.user 3)), Deserialize := fun _ => none,
            asBufRW := none }
          = { buf := Buffer.zero, w := ⟨[9], none⟩, err := some (Error.user 3) }
      ∧ Buffer.zero.WriteSerializable ⟨[9], none⟩
          { Serialize := (Slice.data [5, 6], none), Deserialize := fun _ => none,
            asBufRW := some { SerializeToBufRW := fun w buf => buf.WriteBool w true,
                              DeserializeFromBufRW := fun r buf =>
                                Run.returned { buf := buf, r := r, val := (), err := none } } }
          = Buffer.zero.WriteBool ⟨[9], none⟩ true :=
  ⟨(C16_write_dispatch Buffer.zero ⟨[9], none⟩
      { Serialize := (Slice.data [5, 6], none), Deserialize := fun _ => none,
        asBufRW := none }).2.2.2.1 rfl rfl rfl (by decide),
    (C16_write_dispatch Buffer.zero ⟨[9], none⟩
      { Serialize := (Slice.nil, some (Error.user 3)), Deserialize := fun _ => none,
        asBufRW := none }).2.1 (Error.user 3) rfl rfl,
    (C16_write_dispatch Buffer.zero ⟨[9], none⟩
      { Serialize := (Slice.data [5, 6], none), Deserialize := fun _ => none,
        asBufRW := some { SerializeToBufRW := fun w buf => buf.WriteBool w true,
                          DeserializeFromBufRW := fun r buf =>
                            Run.returned { buf := buf, r := r, val := (), err := none } } }).1
      _ rfl⟩

/-- C17: generic extensible round trip. For every value that is not
buffer-aware and whose `Serialize` returns no error and a byte sequence `bs` of
length at most `2^31-1`, every buffer state and every tail `t`:
`WriteSerializable` on a stream that never fails appends the count and the
bytes, and `ReadSerializable` on that output followed by `t` passes to
`Deserialize` a non-nil slice holding exactly `bs` and returns exactly what
`Deserialize` returns on it, error or nil, leaving `t` unread. Likewise
`ReadByteValues` after `WriteByteValues(bs)` returns `bs`. -/
theorem C17_generic_round_trip (bufW bufR : Buffer) (w : Sink) (hw : w.room = none)
    (val : Serializable) (hg : val.asBufRW = none) (hs : val.Serialize.2 = none)
    (hn : val.Serialize.1.len ≤ 2 ^ 31 - 1) (t : List Byte) (f : Option Error) :
    (bufW.WriteSerializable w val).err = none
      ∧ (bufW.WriteSerializable w val).w.data
          = w.data ++ (intWire val.Serialize.1.len ++ val.Serialize.1.toList)
      ∧ (∃ buf1 : Buffer,
          bufR.ReadSerializable
              ⟨(intWire val.Serialize.1.len ++ val.Serialize.1.toList) ++ t, f⟩ val
            = Run.returned { buf := buf1, r := ⟨t, f⟩, val := (),
                             err := val.Deserialize (Slice.data val.Serialize.1.toList) })
      ∧ (bufW.WriteByteValues w val.Serialize.1.toList).err = none
      ∧ (bufW.WriteByteValues w val.Serialize.1.toList).w.data
          = w.data ++ (intWire val.Serialize.1.len ++ val.Serialize.1.toList)
      ∧ (∃ buf1 : Buffer,
          bufR.ReadByteValues
              ⟨(intWire val.Serialize.1.len ++ val.Serialize.1.toList) ++ t, f⟩
            = Run.returned { buf := buf1, r := ⟨t, f⟩,
                             val := Slice.data val.Serialize.1.toList, err := none }) := by
  have hn1 : val.Serialize.1.toList.length ≤ 2147483647 := by
    norm_num at hn
    exact hn
  obtain ⟨h1, h2⟩ := bufW.WriteByteValues_unbounded w val.Serialize.1.toList hn1 hw
  obtain ⟨buf1, hr⟩ := bufR.ReadByteValues_ok val.Serialize.1.toList hn1 t f
  have hd : (bufW.WriteByteValues w val.Serialize.1.toList).w.data
      = w.data ++ (intWire val.Serialize.1.len ++ val.Serialize.1.toList) := by
    rw [h1]
    rfl
  rw [bufW.WriteSerializable_generic w val hg hs]
  refine ⟨h2, hd, ⟨buf1, ?_⟩, h2, hd, ⟨buf1, hr⟩⟩
  simp only [Buffer.ReadSerializable, hg, Slice.len, hr]

/-- C17 on a value serialized as `05 06 07` whose `Deserialize` returns an error
unless it is given exactly these bytes. -/
theorem C17_generic_round_trip_witness :
    (Buffer.zero.WriteSerializable ⟨[], none⟩
        { Serialize := (Slice.data [5, 6, 7], none),
          Deserialize := fun b => if b = Slice.data [5, 6, 7] then none else some (Error.user 1),
          asBufRW := none }).w.data
        = [] ++ (intWire (Slice.data [5, 6, 7] : Slice Byte).len ++ [5, 6, 7])
      ∧ (∃ buf1 : Buffer,
          (NewBuffer 1).ReadSerializable
              ⟨(intWire (Slice.data [5, 6, 7] : Slice Byte).len ++ [5, 6, 7]) ++ [9], none⟩
              { Serialize := (Slice.data [5, 6, 7], none),
                Deserialize := fun b =>
                  if b = Slice.data [5, 6, 7] then none else some (Error.user 1),
                asBufRW := none }
            = Run.returned { buf := buf1, r := ⟨[9], none⟩, val := (),
                             err := (fun b : Slice Byte =>
                               if b = Slice.data [5, 6, 7] then none else some (Error.user 1))
                               (Slice.data [5, 6, 7]) }) :=
  ⟨(C17_generic_round_trip Buffer.zero (NewBuffer 1) ⟨[], none⟩ rfl
      { Serialize := (Slice.data [5, 6, 7], none),
        Deserialize := fun b => if b = Slice.data [5, 6, 7] then none else some (Error.user 1),
        asBufRW := none } rfl rfl (by decide) [9] none).2.1,
    (C17_generic_round_trip Buffer.zero (NewBuffer 1) ⟨[], none⟩ rfl
      { Serialize := (Slice.data [5, 6, 7], none),
        Deserialize := fun b => if b = Slice.data [5, 6, 7] then none else some (Error.user 1),
        asBufRW := none } rfl rfl (by decide) [9] none).2.2.1⟩

/-- C18: float64 bit-pattern round trip. For every `float64` value `v`, that is
for every 64-bit pattern `v.bits` (those of NaN, of the infinities and of
negative zero among them), every buffer state and every tail `t`:
`WriteFloat64(v)` on a stream that never fails returns no error and appends
exactly the 8 bytes of the pattern in big-endian order, and `ReadFloat64` on
those bytes returns the `float64` with the same bit pattern, hence `v` itself,
with no error, leaving `t` unread. -/
theorem C18_float64_round_trip (bufW bufR : Buffer) (w : Sink) (hw : w.room = none)
    (v : Float64) (t : List Byte) (f : Option Error) :
    (bufW.WriteFloat64 w v).err = none
      ∧ (bufW.WriteFloat64 w v).w.data = w.data ++ beBytes 8 v.bits
      ∧ (beBytes 8 v.bits).length = 8
      ∧ beValue (beBytes 8 v.bits) = v.bits
      ∧ (bufR.ReadFloat64 ⟨beBytes 8 v.bits ++ t, f⟩).val.bits = v.bits
      ∧ (bufR.ReadFloat64 ⟨beBytes 8 v.bits ++ t, f⟩).val = v
      ∧ (bufR.ReadFloat64 ⟨beBytes 8 v.bits ++ t, f⟩).err = none
      ∧ (bufR.ReadFloat64 ⟨beBytes 8 v.bits ++ t, f⟩).r.data = t := by
  obtain ⟨hw1, hw2⟩ := bufW.WriteFloat64_out w v
  rw [Sink.Write_unbounded w _ hw] at hw1 hw2
  obtain ⟨hr1, hr2, hr3⟩ := bufR.ReadFloat64_ok (beBytes 8 v.bits) t f (beBytes_length 8 _)
  have hv : beValue (beBytes 8 v.bits) = v.bits := by
    rw [beValue_beBytes_eight, Nat.mod_eq_of_lt v.lt]
  rw [hv, Float64frombits_bits] at hr3
  refine ⟨hw2, ?_, beBytes_length 8 _, hv, ?_, hr3, hr1, congrArg Source.data hr2⟩
  · rw [hw1]
  · rw [hr3]

/-- C18 on a NaN pattern (`0x7ff8000000000001`), on the zero-value buffer. -/
theorem C18_float64_round_trip_witness :
    (Buffer.zero.WriteFloat64 ⟨[], none⟩ ⟨0x7ff8000000000001, by decide⟩).w.data
        = [] ++ beBytes 8 0x7ff8000000000001
      ∧ (Buffer.zero.ReadFloat64 ⟨beBytes 8 0x7ff8000000000001 ++ [9], none⟩).val.bits
        = 0x7ff8000000000001
      ∧ (Buffer.zero.ReadFloat64 ⟨beBytes 8 0x7ff8000000000001 ++ [9], none⟩).err = none
      ∧ (Buffer.zero.ReadFloat64 ⟨beBytes 8 0x7ff8000000000001 ++ [9], none⟩).r.data = [9] :=
  ⟨(C18_float64_round_trip Buffer.zero Buffer.zero ⟨[], none⟩ rfl
      ⟨0x7ff8000000000001, by decide⟩ [9] none).2.1,
    (C18_float64_round_trip Buffer.zero Buffer.zero ⟨[], none⟩ rfl
      ⟨0x7ff8000000000001, by decide⟩ [9] none).2.2.2.2.1,
    (C18_float64_round_trip Buffer.zero Buffer.zero ⟨[], none⟩ rfl
      ⟨0x7ff8000000000001, by decide⟩ [9] none).2.2.2.2.2.2.1,
    (C18_float64_round_trip Buffer.zero Buffer.zero ⟨[], none⟩ rfl
      ⟨0x7ff8000000000001, by decide⟩ [9] none).2.2.2.2.2.2.2⟩

/-- C19, as stated, fails when the stored prefix exceeds `2^31-1`: on a buffer
of 2 bytes and the stream `80 00 00 00 05 06 07 09`, `ReadString` succeeds, the
value decoded from the prefix is `-1`, the returned string has 4 bytes (the
length the internal region has by then), and 8 bytes are consumed, not
`4 + (-1)`. -/
theorem C19_negative_prefix_reads_region :
    ((NewBuffer 2).ReadString ⟨[0x80, 0, 0, 0, 5, 6, 7, 9], none⟩).err = none
      ∧ ((NewBuffer 2).ReadInt ⟨[0x80, 0, 0, 0, 5, 6, 7, 9], none⟩).val = -1
      ∧ ((NewBuffer 2).ReadString ⟨[0x80, 0, 0, 0, 5, 6, 7, 9], none⟩).val = [5, 6, 7, 9]
      ∧ ((((NewBuffer 2).ReadString ⟨[0x80, 0, 0, 0, 5, 6, 7, 9], none⟩).val.length : Nat) : Int)
          ≠ ((NewBuffer 2).ReadInt ⟨[0x80, 0, 0, 0, 5, 6, 7, 9], none⟩).val
      ∧ ((NewBuffer 2).ReadString ⟨[0x80, 0, 0, 0, 5, 6, 7, 9], none⟩).r.data = [] := by
  decide

/-- C19, amended: exact-size string read for non-negative prefixes. For every
buffer state and every stream on which `ReadString` returns no error, the 4-byte
prefix was read and decoded by the bounded-int rule to a number `n`, negative
exactly when the stored unsigned value exceeds `2^31-1`. When `n ≥ 0` the
returned string has exactly `n` bytes, the `n` bytes after the prefix, and
exactly `4 + n` bytes are consumed. When `n < 0` the size is not validated:
`borrow` hands out the whole internal region, which has `max(c, 4)` bytes for a
buffer that had `c` before the call, the returned string has that many bytes
and `4 + max(c, 4)` bytes are consumed. -/
theorem C19_string_read_size (buf : Buffer) (r : Source) (h : (buf.ReadString r).err = none) :
    (buf.ReadInt r).err = none
      ∧ 4 ≤ r.data.length
      ∧ (buf.ReadInt r).val = intDecode (beValue (r.data.take 4))
      ∧ ((buf.ReadInt r).val < 0 ↔ (2 : Int) ^ 31 - 1 < (beValue (r.data.take 4) : Int))
      ∧ (0 ≤ (buf.ReadInt r).val →
          ((buf.ReadString r).val.length : Int) = (buf.ReadInt r).val
            ∧ 4 + (buf.ReadInt r).val.toNat ≤ r.data.length
            ∧ (buf.ReadString r).val = (r.data.drop 4).take (buf.ReadInt r).val.toNat
            ∧ (buf.ReadString r).r.data = r.data.drop (4 + (buf.ReadInt r).val.toNat))
      ∧ ((buf.ReadInt r).val < 0 →
          (buf.ReadString r).val.length = max buf.b.len 4
            ∧ 4 + max buf.b.len 4 ≤ r.data.length
            ∧ (buf.ReadString r).val = (r.data.drop 4).take (max buf.b.len 4)
            ∧ (buf.ReadString r).r.data = r.data.drop (4 + max buf.b.len 4)) := by
  have hx := buf.ReadString_prefix_ok r h
  obtain ⟨h4, hr, hv⟩ := buf.ReadInt_success r hx
  rw [buf.ReadString_unfold r hx] at h ⊢
  simp only at h ⊢
  have hp : (2 : Int) ^ 31 - 1 = 2147483647 := by norm_num
  refine ⟨hx, h4, hv, ?_, ?_, ?_⟩
  · rw [hv, intDecode, hp]
    split_ifs with hc
    · constructor
      · intro hneg
        omega
      · intro hgt
        omega
    · constructor
      · intro _
        omega
      · intro _
        omega
  · intro hn
    obtain ⟨k, hk⟩ := Int.eq_ofNat_of_zero_le hn
    rw [hk] at h ⊢
    obtain ⟨g1, g2, g3⟩ := (buf.ReadInt r).buf.Read_success (buf.ReadInt r).r k h
    rw [g2, g3]
    rw [hr] at g1 ⊢
    simp only [List.length_drop] at g1
    simp only [Int.toNat_ofNat, List.length_take, List.length_drop, List.drop_drop]
    refine ⟨?_, by omega, trivial, trivial⟩
    congr 1
    omega
  · intro hn
    rw [(buf.ReadInt r).buf.Read_neg_eq (buf.ReadInt r).r _ hn, buf.ReadInt_buf_len r] at h ⊢
    obtain ⟨g1, g2, g3⟩ := (buf.ReadInt r).buf.Read_success (buf.ReadInt r).r
      (max buf.b.len 4) h
    rw [g2, g3]
    rw [hr] at g1 ⊢
    simp only [List.length_drop] at g1
    simp only [List.length_take, List.length_drop, List.drop_drop]
    exact ⟨by omega, by omega, trivial, trivial⟩

/-- C19 amended, on the stream `00 00 00 03 05 06 07 09` (three bytes are
returned, seven consumed) and on the stream `80 00 00 00 05 06 07 09` (the
region's four bytes are returned). -/
theorem C19_string_read_size_witness :
    ((((NewBuffer 2).ReadString ⟨[0, 0, 0, 3, 5, 6, 7, 9], none⟩).val.length : Int)
          = ((NewBuffer 2).ReadInt ⟨[0, 0, 0, 3, 5, 6, 7, 9], none⟩).val
        ∧ 4 + ((NewBuffer 2).ReadInt ⟨[0, 0, 0, 3, 5, 6, 7, 9], none⟩).val.toNat
            ≤ [(0 : Byte), 0, 0, 3, 5, 6, 7, 9].length
        ∧ ((NewBuffer 2).ReadString ⟨[0, 0, 0, 3, 5, 6, 7, 9], none⟩).val
            = ([(0 : Byte), 0, 0, 3, 5, 6, 7, 9].drop 4).take
                ((NewBuffer 2).ReadInt ⟨[0, 0, 0, 3, 5, 6, 7, 9], none⟩).val.toNat
        ∧ ((NewBuffer 2).ReadString ⟨[0, 0, 0, 3, 5, 6, 7, 9], none⟩).r.data
            = [(0 : Byte), 0, 0, 3, 5, 6, 7, 9].drop
                (4 + ((NewBuffer 2).ReadInt ⟨[0, 0, 0, 3, 5, 6, 7, 9], none⟩).val.toNat))
      ∧ (((NewBuffer 2).ReadString ⟨[0x80, 0, 0, 0, 5, 6, 7, 9], none⟩).val.length
          = max (NewBuffer 2).b.len 4
        ∧ 4 + max (NewBuffer 2).b.len 4 ≤ [(0x80 : Byte), 0, 0, 0, 5, 6, 7, 9].length
        ∧ ((NewBuffer 2).ReadString ⟨[0x80, 0, 0, 0, 5, 6, 7, 9], none⟩).val
            = ([(0x80 : Byte), 0, 0, 0, 5, 6, 7, 9].drop 4).take (max (NewBuffer 2).b.len 4)
        ∧ ((NewBuffer 2).ReadString ⟨[0x80, 0, 0, 0, 5, 6, 7, 9], none⟩).r.data
            = [(0x80 : Byte), 0, 0, 0, 5, 6, 7, 9].drop (4 + max (NewBuffer 2).b.len 4)) :=
  ⟨(C19_string_read_size (NewBuffer 2) ⟨[0, 0, 0, 3, 5, 6, 7, 9], none⟩ (by decide)).2.2.2.2.1
      (by decide),
    (C19_string_read_size (NewBuffer 2) ⟨[0x80, 0, 0, 0, 5, 6, 7, 9], none⟩
      (by decide)).2.2.2.2.2 (by decide)⟩

/-- C20, as stated, fails on a negative count: on the stream `80 00 00 00`,
whose prefix decodes to `-1`, none of the six sequence decoders returns an error
to its caller; each ends in the panic of `make` with a negative length, after
the 4 bytes of the prefix were read. -/
theorem C20_negative_count_panics :
    (Buffer.zero.ReadInt ⟨[0x80, 0, 0, 0], none⟩).val = -1
      ∧ Buffer.zero.ReadBools ⟨[0x80, 0, 0, 0], none⟩
          = Run.panicked ⟨Slice.data [0x80, 0, 0, 0], 0⟩ ⟨[], none⟩
      ∧ Buffer.zero.ReadByteValues ⟨[0x80, 0, 0, 0], none⟩
          = Run.panicked ⟨Slice.data [0x80, 0, 0, 0], 0⟩ ⟨[], none⟩
      ∧ Buffer.zero.ReadInts ⟨[0x80, 0, 0, 0], none⟩
          = Run.panicked ⟨Slice.data [0x80, 0, 0, 0], 0⟩ ⟨[], none⟩
      ∧ Buffer.zero.ReadInt64s ⟨[0x80, 0, 0, 0], none⟩
          = Run.panicked ⟨Slice.data [0x80, 0, 0, 0], 0⟩ ⟨[], none⟩
      ∧ Buffer.zero.ReadFloat64s ⟨[0x80, 0, 0, 0], none⟩
          = Run.panicked ⟨Slice.data [0x80, 0, 0, 0], 0⟩ ⟨[], none⟩
      ∧ Buffer.zero.ReadStrings ⟨[0x80, 0, 0, 0], none⟩
          = Run.panicked ⟨Slice.data [0x80, 0, 0, 0], 0⟩ ⟨[], none⟩ := by
  decide

/-- C20, amended: the decoded count is not validated. For every byte stream and
every buffer state, each sequence decoder (`ReadBools`, `ReadByteValues`,
`ReadInts`, `ReadInt64s`, `ReadFloat64s`, `ReadStrings`) returns nil and the
error when the count prefix cannot be read, and returns either a sequence of
that many elements or an error when the prefix decodes to a number `n ≥ 0`; when
the prefix decodes to a negative number (stored unsigned value above `2^31-1`)
the call does not return an error: it ends in the panic of the allocation of a
negative-length sequence. -/
theorem C20_decoders_do_not_validate_count :
    ReturnsUnlessNegativeCount Buffer.ReadBools
      ∧ ReturnsUnlessNegativeCount Buffer.ReadByteValues
      ∧ ReturnsUnlessNegativeCount Buffer.ReadInts
      ∧ ReturnsUnlessNegativeCount Buffer.ReadInt64s
      ∧ ReturnsUnlessNegativeCount Buffer.ReadFloat64s
      ∧ ReturnsUnlessNegativeCount Buffer.ReadStrings :=
  ⟨readSeq_contract false Buffer.ReadBool, readSeq_contract 0 Buffer.ReadByteValue,
    readSeq_contract 0 Buffer.ReadInt, readSeq_contract 0 Buffer.ReadInt64,
    readSeq_contract Float64.zero Buffer.ReadFloat64, readSeq_contract [] Buffer.ReadString⟩

/-- C20 amended, for `ReadInts` on three streams: `00 00` (the prefix cannot be
read), `00 00 00 01 00` (count 1, the element cannot be read) and `80 00 00 00`
(count `-1`). -/
theorem C20_decoders_do_not_validate_count_witness :
    Buffer.zero.ReadInts ⟨[0, 0], none⟩
        = Run.returned { buf := (Buffer.zero.ReadInt ⟨[0, 0], none⟩).buf,
                         r := (Buffer.zero.ReadInt ⟨[0, 0], none⟩).r,
                         val := Slice.nil, err := some Error.unexpectedEOF }
      ∧ (∃ x : ReadResult (Slice Int),
          Buffer.zero.ReadInts ⟨[0, 0, 0, 1, 0], none⟩ = Run.returned x
            ∧ ((x.err = none ∧ ∃ vs : List Int, x.val = Slice.data vs
                  ∧ (vs.length : Int) = (Buffer.zero.ReadInt ⟨[0, 0, 0, 1, 0], none⟩).val)
              ∨ (∃ e : Error, x.err = some e ∧ x.val = Slice.nil)))
      ∧ Buffer.zero.ReadInts ⟨[0x80, 0, 0, 0], none⟩
        = Run.panicked (Buffer.zero.ReadInt ⟨[0x80, 0, 0, 0], none⟩).buf
            (Buffer.zero.ReadInt ⟨[0x80, 0, 0, 0], none⟩).r :=
  ⟨(C20_decoders_do_not_validate_count.2.2.1 Buffer.zero ⟨[0, 0], none⟩).1
      Error.unexpectedEOF (by decide),
    (C20_decoders_do_not_validate_count.2.2.1 Buffer.zero ⟨[0, 0, 0, 1, 0], none⟩).2.1
      (by decide) (by decide),
    (C20_decoders_do_not_validate_count.2.2.1 Buffer.zero ⟨[0x80, 0, 0, 0], none⟩).2.2
      (by decide) (by decide)⟩

/-- C21: sequence writes are not atomic. For every list of integers of length
at most `2^31-1` whose first element outside `[-2^31, 2^31-1]` is at index `k`
(the list is `pre ++ bad :: post` with `k = len(pre)`, every element of `pre` in
range and `bad` out of range), `WriteInts` on a stream that never fails returns
the range error and the stream has received exactly the wire form of the count
followed by the wire forms of the `k` elements before `bad`, `4 + 4k` bytes:
nothing is rolled back and nothing from index `k` on is written. -/
theorem C21_ints_write_not_atomic (buf : Buffer) (w : Sink) (hw : w.room = none)
    (pre : List Int) (bad : Int) (post : List Int)
    (hpre : ∀ v ∈ pre, -2 ^ 31 ≤ v ∧ v ≤ 2 ^ 31 - 1)
    (hbad : bad < -2 ^ 31 ∨ 2 ^ 31 - 1 < bad)
    (hn : (pre ++ bad :: post).length ≤ 2 ^ 31 - 1) :
    (pre ++ bad :: post).take pre.length = pre
      ∧ (pre ++ bad :: post)[pre.length]? = some bad
      ∧ (buf.WriteInts w (pre ++ bad :: post)).err = some Error.range
      ∧ (buf.WriteInts w (pre ++ bad :: post)).w.data
          = w.data ++ (intWire (pre ++ bad :: post).length ++ seqBody intWire pre)
      ∧ (intWire (pre ++ bad :: post).length ++ seqBody intWire pre).length
          = 4 + 4 * pre.length := by
  have hn1 : (pre ++ bad :: post).length ≤ 2147483647 := by
    have h31 : (2 : Nat) ^ 31 - 1 = 2147483647 := by norm_num
    rw [h31] at hn
    exact hn
  have hpre1 : ∀ v ∈ pre, -2147483648 ≤ v ∧ v ≤ 2147483647 := by
    intro v hm
    have h := hpre v hm
    norm_num at h
    exact h
  have hbad1 : bad > MaxInt32 ∨ bad < MinInt32 := by
    simp only [MaxInt32, MinInt32]
    norm_num at hbad
    rcases hbad with h | h
    · exact Or.inr h
    · exact Or.inl h
  obtain ⟨h1, h2⟩ := buf.WriteInt_unbounded w ((pre ++ bad :: post).length : Int)
    ⟨by omega, by omega⟩ hw
  obtain ⟨g1, g2⟩ := rangeWrite_WriteInt_stops pre bad post hpre1 hbad1
    (buf.WriteInt w ((pre ++ bad :: post).length : Int)).buf
    (buf.WriteInt w ((pre ++ bad :: post).length : Int)).w (by rw [h1])
  refine ⟨List.take_left _ _, ?_, ?_, ?_, ?_⟩
  · rw [List.getElem?_append_right (le_refl _), Nat.sub_self]
    exact List.getElem?_cons_zero
  · simp only [Buffer.WriteInts, h2]
    exact g2
  · simp only [Buffer.WriteInts, h2]
    rw [g1, h1]
    simp [List.append_assoc]
  · rw [List.length_append, intWire_length, seqBody_intWire_length]

/-- C21 on the list `[7, -1, 2^31, 5]`, whose first element out of range is at
index 2: the count and the first two elements are written, 12 bytes. -/
theorem C21_ints_write_not_atomic_witness :
    (Buffer.zero.WriteInts ⟨[], none⟩ ([7, -1] ++ 2147483648 :: [5])).err = some Error.range
      ∧ (Buffer.zero.WriteInts ⟨[], none⟩ ([7, -1] ++ 2147483648 :: [5])).w.data
          = [] ++ (intWire ([7, -1] ++ 2147483648 :: [5] : List Int).length
              ++ seqBody intWire [7, -1])
      ∧ (intWire ([7, -1] ++ 2147483648 :: [5] : List Int).length
            ++ seqBody intWire [7, -1]).length = 4 + 4 * ([7, -1] : List Int).length :=
  (C21_ints_write_not_atomic Buffer.zero ⟨[], none⟩ rfl [7, -1] 2147483648 [5]
    (by
      intro v hm
      simp only [List.mem_cons, List.mem_singleton, List.not_mem_nil, or_false] at hm
      rcases hm with h | h <;> subst h <;> norm_num)
    (Or.inr (by norm_num)) (by decide)).2.2

/-- C22: the bounded-int encoding is a bijection between `[-2^31, 2^31-1]` and
the 4-byte patterns. For every four bytes, `ReadInt` returns no error and a value
`v` with `-2^31 ≤ v ≤ 2^31-1`, and `WriteInt(v)` on a stream that never fails
returns no error and writes exactly these four bytes again; hence two patterns
that decode to the same integer are the same pattern, the only pattern of zero
is `00 00 00 00`, and every integer of the range is the value of the pattern
`WriteInt` writes for it. -/
theorem C22_int_encoding_bijection (bufR bufW : Buffer) (w : Sink) (hw : w.room = none)
    (b0 b1 b2 b3 : Byte) (f : Option Error) :
    (bufR.ReadInt ⟨[b0, b1, b2, b3], f⟩).err = none
      ∧ -2 ^ 31 ≤ (bufR.ReadInt ⟨[b0, b1, b2, b3], f⟩).val
      ∧ (bufR.ReadInt ⟨[b0, b1, b2, b3], f⟩).val ≤ 2 ^ 31 - 1
      ∧ (bufW.WriteInt w (bufR.ReadInt ⟨[b0, b1, b2, b3], f⟩).val).err = none
      ∧ (bufW.WriteInt w (bufR.ReadInt ⟨[b0, b1, b2, b3], f⟩).val).w.data
          = w.data ++ [b0, b1, b2, b3]
      ∧ (∀ c0 c1 c2 c3 : Byte,
          (bufR.ReadInt ⟨[c0, c1, c2, c3], f⟩).val = (bufR.ReadInt ⟨[b0, b1, b2, b3], f⟩).val →
            [c0, c1, c2, c3] = [b0, b1, b2, b3])
      ∧ ((bufR.ReadInt ⟨[b0, b1, b2, b3], f⟩).val = 0 → [b0, b1, b2, b3] = [0, 0, 0, 0])
      ∧ (∀ v : Int, -2 ^ 31 ≤ v → v ≤ 2 ^ 31 - 1 →
          (intWire v).length = 4 ∧ (bufR.ReadInt ⟨intWire v, f⟩).val = v) := by
  obtain ⟨e1, _, _⟩ := bufR.ReadInt_ok [b0, b1, b2, b3] [] f rfl
  obtain ⟨hlo, hhi, hinv⟩ := ReadInt_val_inverse bufR b0 b1 b2 b3 [] f
  obtain ⟨hw1, hw2⟩ := bufW.WriteInt_unbounded w (bufR.ReadInt ⟨[b0, b1, b2, b3], f⟩).val
    ⟨hlo, hhi⟩ hw
  have hp : (2 : Int) ^ 31 = 2147483648 := by norm_num
  refine ⟨e1, by rw [hp]; exact hlo, by rw [hp]; exact hhi, hw2, ?_, ?_, ?_, ?_⟩
  · rw [hw1, hinv]
  · intro c0 c1 c2 c3 hc
    obtain ⟨_, _, hinv2⟩ := ReadInt_val_inverse bufR c0 c1 c2 c3 [] f
    rw [← hinv2, ← hinv, hc]
  · intro hz
    rw [← hinv, hz]
    decide
  · intro v h1 h2
    rw [hp] at h1 h2
    obtain ⟨_, _, g3⟩ := bufR.ReadInt_intWire v h1 (by omega) [] f
    rw [List.append_nil] at g3
    exact ⟨intWire_length v, g3⟩

/-- C22 on the pattern `ff ff ff ff`, which decodes to `-2^31` and is written
back as `ff ff ff ff`. -/
theorem C22_int_encoding_bijection_witness :
    (Buffer.zero.ReadInt ⟨[0xff, 0xff, 0xff, 0xff], none⟩).err = none
      ∧ -2 ^ 31 ≤ (Buffer.zero.ReadInt ⟨[0xff, 0xff, 0xff, 0xff], none⟩).val
      ∧ (Buffer.zero.ReadInt ⟨[0xff, 0xff, 0xff, 0xff], none⟩).val ≤ 2 ^ 31 - 1
      ∧ ((NewBuffer 1).WriteInt ⟨[9], none⟩
          (Buffer.zero.ReadInt ⟨[0xff, 0xff, 0xff, 0xff], none⟩).val).err = none
      ∧ ((NewBuffer 1).WriteInt ⟨[9], none⟩
          (Buffer.zero.ReadInt ⟨[0xff, 0xff, 0xff, 0xff], none⟩).val).w.data
          = [9] ++ [0xff, 0xff, 0xff, 0xff] :=
  ⟨(C22_int_encoding_bijection Buffer.zero (NewBuffer 1) ⟨[9], none⟩ rfl
      0xff 0xff 0xff 0xff none).1,
    (C22_int_encoding_bijection Buffer.zero (NewBuffer 1) ⟨[9], none⟩ rfl
      0xff 0xff 0xff 0xff none).2.1,
    (C22_int_encoding_bijection Buffer.zero (NewBuffer 1) ⟨[9], none⟩ rfl
      0xff 0xff 0xff 0xff none).2.2.1,
    (C22_int_encoding_bijection Buffer.zero (NewBuffer 1) ⟨[9], none⟩ rfl
      0xff 0xff 0xff 0xff none).2.2.2.1,
    (C22_int_encoding_bijection Buffer.zero (NewBuffer 1) ⟨[9], none⟩ rfl
      0xff 0xff 0xff 0xff none).2.2.2.2.1⟩

/-- C23: mode selection of `Buffer.Writer`. The wrapper it returns is bound to
the given buffer and stream, its `Err()` is nil, and it is strict exactly when
at least one flag is given and the first flag is true. With no flag, or with a
first flag that is false, it is best-effort: after any first call, failed or
not, the next call is performed on the buffer and the stream, and its result
(nil on success) is returned and replaces the stored error. In strict mode a
call after a failed one is not performed and returns the stored error. -/
theorem C23_writer_mode_selection (buf : Buffer) (w : Sink) (flags : List Bool)
    (c1 c2 : WriterCall) :
    (buf.Writer w flags).Err = none
      ∧ (buf.Writer w flags).buf = buf
      ∧ (buf.Writer w flags).w = w
      ∧ ((buf.Writer w flags).stopOnError = true ↔ ∃ rest : List Bool, flags = true :: rest)
      ∧ ((buf.Writer w flags).stopOnError = false
          ↔ (flags = [] ∨ ∃ rest : List Bool, flags = false :: rest))
      ∧ ((flags = [] ∨ ∃ rest : List Bool, flags = false :: rest) →
          (((buf.Writer w flags).call c1).1.call c2).2
              = (c2.fn ((buf.Writer w flags).call c1).1.buf ((buf.Writer w flags).call c1).1.w).err
            ∧ (((buf.Writer w flags).call c1).1.call c2).1.Err
              = (c2.fn ((buf.Writer w flags).call c1).1.buf ((buf.Writer w flags).call c1).1.w).err
            ∧ (((buf.Writer w flags).call c1).1.call c2).1.w
              = (c2.fn ((buf.Writer w flags).call c1).1.buf ((buf.Writer w flags).call c1).1.w).w)
      ∧ ((∃ rest : List Bool, flags = true :: rest) →
          ∀ e : Error, ((buf.Writer w flags).call c1).2 = some e →
            ((buf.Writer w flags).call c1).1.call c2
              = (((buf.Writer w flags).call c1).1, some e)) := by
  have hstrict := buf.Writer_strict_iff w flags
  have hbest : (buf.Writer w flags).stopOnError = false
      ↔ (flags = [] ∨ ∃ rest : List Bool, flags = false :: rest) := by
    cases flags with
    | nil => simp [Buffer.Writer]
    | cons b rest => cases b <;> simp [Buffer.Writer]
  have hm : ((buf.Writer w flags).call c1).1.stopOnError = (buf.Writer w flags).stopOnError := by
    rw [Writer.call_eq_do, Writer.do_mode]
  refine ⟨rfl, rfl, rfl, hstrict, hbest, ?_, ?_⟩
  · intro hf
    have hb : ((buf.Writer w flags).call c1).1.stopOnError = false := by
      rw [hm]
      exact hbest.mpr hf
    rw [Writer.call_eq_do _ c2, Writer.do_attempt _ _ (Or.inr hb)]
    exact ⟨rfl, rfl, rfl⟩
  · intro hf e he
    have hs : ((buf.Writer w flags).call c1).1.stopOnError = true := by
      rw [hm]
      exact hstrict.mpr hf
    have hr : ((buf.Writer w flags).call c1).1.err = some e := by
      rw [Writer.call_eq_do, Writer.do_err, ← Writer.call_eq_do, he]
    rw [Writer.call_eq_do _ c2]
    exact Writer.do_latched _ _ e hr hs

/-- C23 with no flag and with the flag `true`, for the calls `WriteInt(2^31)`
(which fails) and `WriteInt(0)`. -/
theorem C23_writer_mode_selection_witness :
    ((((Buffer.zero.Writer ⟨[], none⟩ []).call (WriterCall.WriteInt 2147483648)).1.call
          (WriterCall.WriteInt 0)).2
        = ((WriterCall.WriteInt 0).fn
            ((Buffer.zero.Writer ⟨[], none⟩ []).call (WriterCall.WriteInt 2147483648)).1.buf
            ((Buffer.zero.Writer ⟨[], none⟩ []).call (WriterCall.WriteInt 2147483648)).1.w).err
      ∧ (((Buffer.zero.Writer ⟨[], none⟩ []).call (WriterCall.WriteInt 2147483648)).1.call
          (WriterCall.WriteInt 0)).1.Err
        = ((WriterCall.WriteInt 0).fn
            ((Buffer.zero.Writer ⟨[], none⟩ []).call (WriterCall.WriteInt 2147483648)).1.buf
            ((Buffer.zero.Writer ⟨[], none⟩ []).call (WriterCall.WriteInt 2147483648)).1.w).err
      ∧ (((Buffer.zero.Writer ⟨[], none⟩ []).call (WriterCall.WriteInt 2147483648)).1.call
          (WriterCall.WriteInt 0)).1.w
        = ((WriterCall.WriteInt 0).fn
            ((Buffer.zero.Writer ⟨[], none⟩ []).call (WriterCall.WriteInt 2147483648)).1.buf
            ((Buffer.zero.Writer ⟨[], none⟩ []).call (WriterCall.WriteInt 2147483648)).1.w).w)
      ∧ ((Buffer.zero.Writer ⟨[], none⟩ [true]).call (WriterCall.WriteInt 2147483648)).1.call
          (WriterCall.WriteInt 0)
        = (((Buffer.zero.Writer ⟨[], none⟩ [true]).call (WriterCall.WriteInt 2147483648)).1,
            some Error.range) :=
  ⟨(C23_writer_mode_selection Buffer.zero ⟨[], none⟩ [] (WriterCall.WriteInt 2147483648)
      (WriterCall.WriteInt 0)).2.2.2.2.2.1 (Or.inl rfl),
    (C23_writer_mode_selection Buffer.zero ⟨[], none⟩ [true] (WriterCall.WriteInt 2147483648)
      (WriterCall.WriteInt 0)).2.2.2.2.2.2 ⟨[], rfl⟩ Error.range (by decide)⟩

end Bufrw
